import Mathlib

/-!
Verification development for the PiCanvas repository.

The development shallowly embeds the pure computational core of two source
modules:

* `ContentRenderer` (src/unnamed/part_006): embed-URL validation, CSS value
  sanitisation, CSS-safe identifier generation, HTML entity encoding, RSS
  text truncation and date formatting, and the render pipelines for
  Markdown/HTML content.
* The tab controller `AddTabs.js` (src/src/webparts/piCanvas/AddTabs.js):
  tab activation, ARIA bookkeeping, event emission, and the banner
  mutation-observer guard.

JavaScript strings are modelled as Lean `String` values; the handful of
JavaScript string primitives the source relies on (`toLowerCase`, `trim`,
`replace` with the concrete regexes that appear in the source, `substring`,
`endsWith`) are modelled explicitly below, over `String.data` character
lists.  JavaScript numbers appearing in the relevant code paths are integer
valued, and `Math.floor` of a quotient of integers is modelled with
`Int.fdiv`.
-/

/-! ## JavaScript string primitives -/

/-- Model of JavaScript `String.prototype.toLowerCase` for the ASCII
strings handled by this code base: character-wise lowering. -/
def toLowerJs (s : String) : String :=
  ⟨s.data.map Char.toLower⟩

/-- Whitespace recognised by JavaScript `String.prototype.trim` (ASCII
portion, which is all that the source's inputs use). -/
def isJsWhitespace (c : Char) : Bool :=
  c = ' ' || c = '\t' || c = '\n' || c = '\r' || c = '\x0b' || c = '\x0c'

/-- Model of JavaScript `String.prototype.trim`: drop whitespace from both
ends. -/
def jsTrim (s : String) : String :=
  ⟨((s.data.dropWhile isJsWhitespace).reverse.dropWhile isJsWhitespace).reverse⟩

/-- Does `pat` occur as a prefix of some suffix of `l`? -/
def containsSub (pat : List Char) : List Char → Bool
  | [] => pat.isEmpty
  | c :: rest => List.isPrefixOf pat (c :: rest) || containsSub pat rest

/-- Substring test: does `pat` occur contiguously inside `s`? -/
def strContains (s pat : String) : Bool :=
  containsSub pat.data s.data

/-- Model of JavaScript `String.prototype.endsWith`. -/
def strEndsWith (s pat : String) : Bool :=
  List.isSuffixOf pat.data s.data

/-- Model of `str.replace(/^www\./, '')`: strip one leading `www.`. -/
def stripWww (s : String) : String :=
  if List.isPrefixOf "www.".data s.data then ⟨s.data.drop 4⟩ else s

/-! ## ContentRenderer.sanitizeCssValue (src/unnamed/part_006:847-860) -/

/-- Character class `[\d.]` of the source's `safePattern` regex. -/
def isDigitOrDot (c : Char) : Bool :=
  c.isDigit || c = '.'

/-- The allowed CSS units of `safePattern`, lower-cased. -/
def safeCssUnits : List String :=
  ["", "px", "em", "rem", "%", "vh", "vw"]

/-- Test for the source regex `/^[\d.]+(px|em|rem|%|vh|vw)?$/i`: a nonempty
run of digits and dots followed by an optional unit (case-insensitive).
Because no unit starts with a digit or a dot, the maximal-munch split is
the only possible one, so the regex is equivalent to this test. -/
def matchesSafeCss (s : String) : Bool :=
  let ds := s.data.takeWhile isDigitOrDot
  ds.length > 0 && safeCssUnits.contains (toLowerJs ⟨s.data.drop ds.length⟩)

/-- Test for the source regex `/^\d+$/`. -/
def allDigits (s : String) : Bool :=
  s.data.length > 0 && s.data.all Char.isDigit

/-- Embedding of `ContentRenderer.sanitizeCssValue`
(src/unnamed/part_006:847-860). -/
def sanitizeCssValue (value : String) : String :=
  if value = "" then ""
  else
    let trimmed := jsTrim value
    if matchesSafeCss trimmed then trimmed
    else if allDigits trimmed then trimmed ++ "px"
    else "400px"

/-! ## ContentRenderer.makeCssSafeId (src/unnamed/part_006:867-881) -/

/-- Character class `[a-zA-Z0-9_-]` kept by the source's first replace. -/
def allowedIdChar (c : Char) : Bool :=
  c.isAlpha || c.isDigit || c = '_' || c = '-'

/-- Model of `str.replace(/[^a-zA-Z0-9_-]/g, '-')`. -/
def replaceSpecials (l : List Char) : List Char :=
  l.map fun c => if allowedIdChar c then c else '-'

/-- Model of the `if (/^[0-9]/.test(safeId)) safeId = 'm-' + safeId` step. -/
def prefixIfDigit (l : List Char) : List Char :=
  match l with
  | [] => []
  | c :: _ => if c.isDigit then 'm' :: '-' :: l else l

/-- Model of the source's global hyphen-run replace (regex `-+` with flag
`g`, replacement `-`): collapse every run of hyphens to a single hyphen. -/
def collapseDashes : List Char → List Char
  | [] => []
  | [c] => [c]
  | c :: d :: rest =>
    if c = '-' && d = '-' then collapseDashes (d :: rest)
    else c :: collapseDashes (d :: rest)

/-- Drop a trailing run of hyphens (the `-+$` alternative of the source's
`replace(/^-+|-+$/g, '')`). -/
def dropTrailingDashes : List Char → List Char
  | [] => []
  | c :: rest =>
    match dropTrailingDashes rest with
    | [] => if c = '-' then [] else [c]
    | r => c :: r

/-- Model of `safeId.replace(/^-+|-+$/g, '')`: remove the leading and the
trailing run of hyphens. -/
def stripEdgeDashes (l : List Char) : List Char :=
  dropTrailingDashes (l.dropWhile fun c => c = '-')

/-- Embedding of `ContentRenderer.makeCssSafeId`
(src/unnamed/part_006:867-881).  The source falls back to
`'mermaid-' + Date.now()` for empty input or an empty sanitised result;
`Date.now()` is modelled by the explicit parameter `now`. -/
def makeCssSafeId (now : Nat) (str : String) : String :=
  if str = "" then "mermaid-" ++ toString now
  else
    let safeId := stripEdgeDashes (collapseDashes (prefixIfDigit (replaceSpecials str.data)))
    if safeId = [] then "mermaid-" ++ toString now else ⟨safeId⟩

/-! ## ContentRenderer.encodeHtml (src/unnamed/part_006:809-817) -/

/-- Model of `str.replace(/c/g, r)` for a single-character pattern. -/
def replaceAllChar (l : List Char) (c : Char) (r : List Char) : List Char :=
  l.flatMap fun x => if x = c then r else [x]

/-- Embedding of `ContentRenderer.encodeHtml` (src/unnamed/part_006:809-817):
the source's chain of five global single-character replaces. -/
def encodeHtml (str : String) : String :=
  if str = "" then ""
  else
    ⟨replaceAllChar
      (replaceAllChar
        (replaceAllChar
          (replaceAllChar
            (replaceAllChar str.data '&' "&amp;".data)
            '<' "&lt;".data)
          '>' "&gt;".data)
        '"' "&quot;".data)
      '\'' "&#39;".data⟩

/-- Character-wise description of `encodeHtml`'s five chained replaces
(proved equivalent below). -/
def encodeChar (c : Char) : List Char :=
  if c = '&' then "&amp;".data
  else if c = '<' then "&lt;".data
  else if c = '>' then "&gt;".data
  else if c = '"' then "&quot;".data
  else if c = '\'' then "&#39;".data
  else [c]

/-! ## ContentRenderer.truncateRssText (src/unnamed/part_006:1083-1086) -/

/-- Embedding of `ContentRenderer.truncateRssText`
(src/unnamed/part_006:1083-1086).  `text.length` and `substring(0, limit)`
are modelled on the character list. -/
def truncateRssText (text : String) (limit : Nat) : String :=
  if text = "" || text.data.length ≤ limit then text
  else jsTrim ⟨text.data.take limit⟩ ++ "..."

/-! ## Render results and embed configuration (src/unnamed/part_006:412-445) -/

/-- Embedding of `IRenderResult` (src/unnamed/part_006:441-445).  The two
optional fields are `false`/`none` when the source omits them. -/
structure RenderResult where
  html : String
  requiresPostRender : Bool
  postRenderType : Option String
deriving DecidableEq, Repr

/-- Embedding of `IEmbedConfig` (src/unnamed/part_006:412-417).  `height`
is `none` when absent (the source then defaults it to `'400px'`). -/
structure EmbedConfig where
  url : String
  height : Option String
  additionalDomains : List String
  defer : Bool
deriving DecidableEq, Repr

/-- The observable outcome of the browser's `new URL(url)`: the protocol
(including the trailing colon) and the hostname.  A failed parse is
`none`; the source's `try`/`catch` around `new URL` maps to the `Option`.
The URL parser itself is a platform primitive and is not re-implemented;
the embedding is parameterised by its outcome. -/
structure UrlParts where
  protocol : String
  hostname : String
deriving DecidableEq, Repr

/-- Embedding of `ContentRenderer.DEFAULT_TRUSTED_DOMAINS`
(src/unnamed/part_006:472-508). -/
def DEFAULT_TRUSTED_DOMAINS : List String :=
  ["youtube.com", "youtu.be", "youtube-nocookie.com",
   "vimeo.com", "player.vimeo.com",
   "powerbi.com", "app.powerbi.com",
   "powerapps.com", "apps.powerapps.com",
   "flow.microsoft.com",
   "forms.office.com", "forms.microsoft.com",
   "sharepoint.com", "sharepoint-df.com",
   "onedrive.live.com", "onedrive.com",
   "sway.office.com", "sway.com",
   "microsoft.com", "office.com",
   "stream.microsoft.com", "web.microsoftstream.com",
   "teams.microsoft.com",
   "loop.microsoft.com",
   "canva.com",
   "figma.com",
   "miro.com",
   "lucid.app", "lucidchart.com",
   "whimsical.com",
   "loom.com",
   "calendly.com",
   "typeform.com",
   "airtable.com",
   "notion.so", "notion.site",
   "coda.io",
   "mural.co",
   "pitch.com",
   "pideas.studio"]

/-- Embedding of `ContentRenderer.sanitizeEmbedUrl`
(src/unnamed/part_006:733-768), parameterised by the outcome `parsed` of
`new URL(url)`. -/
def sanitizeEmbedUrl (parsed : Option UrlParts) (url : String)
    (additionalDomains : List String) : String :=
  let allAllowed := DEFAULT_TRUSTED_DOMAINS ++ additionalDomains
  match parsed with
  | none => ""
  | some p =>
    if p.protocol ≠ "https:" then ""
    else
      let domain := toLowerJs (stripWww p.hostname)
      let isAllowed := allAllowed.any fun allowed =>
        let pat := toLowerJs (stripWww allowed)
        domain == pat || strEndsWith domain ("." ++ pat)
      if isAllowed then url else ""

/-- The `<p>` error notice returned by `renderEmbed` for a missing URL
(src/unnamed/part_006:690). -/
def embedNoUrlHtml : String :=
  "<p class=\"picanvas-render-error\">No embed URL provided</p>"

/-- The blocked-embed notice template of `renderEmbed`
(src/unnamed/part_006:697-708). -/
def embedBlockedHtml : String :=
  "\n          <div class=\"picanvas-embed-blocked\">\n            <span class=\"blocked-icon\">🚫</span>\n            <span class=\"blocked-text\">This embed URL is not allowed.</span>\n            <details>\n              <summary>Allowed domains</summary>\n              <p>Contact your site administrator to add this domain to the allow list.</p>\n            </details>\n          </div>\n        "

/-- Opening of the iframe template up to the interpolated height
(src/unnamed/part_006:714-715). -/
def embedContainerPre : String :=
  "\n      <div class=\"picanvas-embed-container\" style=\"height: "

/-- Iframe template between the height and the src attribute
(src/unnamed/part_006:715-717). -/
def embedFrameMid : String :=
  "\">\n        <iframe\n          "

/-- Remainder of the iframe template after the src attribute
(src/unnamed/part_006:718-725). -/
def embedFrameTail : String :=
  "\n          style=\"width: 100%; height: 100%; border: none;\"\n          loading=\"lazy\"\n          allowfullscreen\n          referrerpolicy=\"no-referrer-when-downgrade\"\n          sandbox=\"allow-scripts allow-same-origin allow-forms allow-popups allow-presentation\"\n        ></iframe>\n      </div>\n    "

/-- The iframe template of `renderEmbed` (src/unnamed/part_006:714-725)
with the two interpolations substituted. -/
def embedFrameHtml (cssHeight srcAttr : String) : String :=
  embedContainerPre ++ cssHeight ++ embedFrameMid ++ srcAttr ++ embedFrameTail

/-- Embedding of `ContentRenderer.renderEmbed`
(src/unnamed/part_006:686-728), parameterised by the outcome `parsed` of
`new URL(config.url)`. -/
def renderEmbed (parsed : Option UrlParts) (config : EmbedConfig) : RenderResult :=
  let url := config.url
  let height := config.height.getD "400px"
  if url = "" then
    { html := embedNoUrlHtml, requiresPostRender := false, postRenderType := none }
  else
    let sanitizedUrl := sanitizeEmbedUrl parsed url config.additionalDomains
    if sanitizedUrl = "" then
      { html := embedBlockedHtml, requiresPostRender := false, postRenderType := none }
    else
      let encodedUrl := encodeHtml sanitizedUrl
      let iframeSrcAttr :=
        if config.defer then "data-src=\"" ++ encodedUrl ++ "\""
        else "src=\"" ++ encodedUrl ++ "\""
      { html := embedFrameHtml (sanitizeCssValue height) iframeSrcAttr,
        requiresPostRender := false, postRenderType := none }

/-- Does a rendered fragment contain an iframe element? -/
def hasFrame (html : String) : Bool :=
  strContains html "<iframe"

/-! ## ContentRenderer.formatRssDate (src/unnamed/part_006:1050-1078) -/

/-- The observations the source takes from a JavaScript `Date`: validity
(`date instanceof Date && !isNaN(date.getTime())`), the epoch milliseconds
`getTime()`, and the local calendar fields `getDate()`, `getMonth()`,
`getFullYear()`. -/
structure JsDate where
  valid : Bool
  timeMs : Int
  dayOfMonth : Nat
  monthIdx : Nat
  fullYear : Int
deriving DecidableEq, Repr

/-- Model of `n.toString().padStart(2, '0')` for a calendar component. -/
def pad2 (n : Nat) : String :=
  if n < 10 then "0" ++ toString n else toString n

/-- The absolute-format tail of `formatRssDate`
(src/unnamed/part_006:1070-1077). -/
def formatRssDateAbsolute (date : JsDate) (format : String) : String :=
  let day := pad2 date.dayOfMonth
  let month := pad2 (date.monthIdx + 1)
  let year := toString date.fullYear
  if format = "DD/MM/YYYY" then day ++ "/" ++ month ++ "/" ++ year
  else month ++ "/" ++ day ++ "/" ++ year

/-- Embedding of `ContentRenderer.formatRssDate`
(src/unnamed/part_006:1050-1078).  `new Date()` (the current time) is the
explicit parameter `nowMs`; `Math.floor` of a quotient is `Int.fdiv`. -/
def formatRssDate (nowMs : Int) (date : JsDate) (format : String) : String :=
  if !date.valid then ""
  else if format = "relative" then
    let diffMs := nowMs - date.timeMs
    let diffMins := Int.fdiv diffMs 60000
    let diffHours := Int.fdiv diffMins 60
    let diffDays := Int.fdiv diffHours 24
    if diffMins < 1 then "Just now"
    else if diffMins < 60 then toString diffMins ++ "m ago"
    else if diffHours < 24 then toString diffHours ++ "h ago"
    else if diffDays = 1 then "Yesterday"
    else if diffDays < 7 then toString diffDays ++ "d ago"
    else if diffDays < 30 then toString (Int.fdiv diffDays 7) ++ "w ago"
    else formatRssDateAbsolute date format
  else formatRssDateAbsolute date format

/-! ## ContentRenderer.renderMarkdown / renderHtml (src/unnamed/part_006:528-581)

The renderers guard `!content || typeof content !== 'string'`, then call
the external collaborators `marked.parse` and `DOMPurify.sanitize` inside
`try`/`catch`.  The collaborators are library code outside this
repository; their possible outcomes (a result, or a thrown exception) are
modelled as `Except`-valued parameters. -/

/-- A JavaScript value passed where a string is expected: either an actual
string or some non-string value (`undefined`, `null`, a number, ...). -/
inductive JsVal where
  | str : String → JsVal
  | nonString : JsVal
deriving DecidableEq, Repr

/-- The error fragment of `renderMarkdown`'s catch branch
(src/unnamed/part_006:551). -/
def markdownErrorHtml : String :=
  "<p class=\"picanvas-render-error\">Error rendering Markdown content</p>"

/-- The error fragment of `renderHtml`'s catch branch
(src/unnamed/part_006:579). -/
def htmlErrorHtml : String :=
  "<p class=\"picanvas-render-error\">Error rendering HTML content</p>"

/-- Embedding of `ContentRenderer.renderMarkdown`
(src/unnamed/part_006:528-553).  `parse` models `marked.parse` with its
GFM options and `sanitize` models `DOMPurify.sanitize` with the strict
profile; `Except.error` models a thrown exception, which the source's
`catch` converts to the error fragment. -/
def renderMarkdown (parse sanitize : String → Except String String)
    (content : JsVal) : RenderResult :=
  match content with
  | JsVal.nonString =>
    { html := "", requiresPostRender := false, postRenderType := none }
  | JsVal.str s =>
    if s = "" then
      { html := "", requiresPostRender := false, postRenderType := none }
    else
      match parse s with
      | Except.error _ =>
        { html := markdownErrorHtml, requiresPostRender := false, postRenderType := none }
      | Except.ok rawHtml =>
        match sanitize rawHtml with
        | Except.error _ =>
          { html := markdownErrorHtml, requiresPostRender := false, postRenderType := none }
        | Except.ok sanitizedHtml =>
          { html := sanitizedHtml, requiresPostRender := false, postRenderType := none }

/-- Embedding of `ContentRenderer.renderHtml`
(src/unnamed/part_006:558-581).  `sanitize` models `DOMPurify.sanitize`
with the iframe-permitting profile. -/
def renderHtml (sanitize : String → Except String String)
    (content : JsVal) : RenderResult :=
  match content with
  | JsVal.nonString =>
    { html := "", requiresPostRender := false, postRenderType := none }
  | JsVal.str s =>
    if s = "" then
      { html := "", requiresPostRender := false, postRenderType := none }
    else
      match sanitize s with
      | Except.error _ =>
        { html := htmlErrorHtml, requiresPostRender := false, postRenderType := none }
      | Except.ok sanitizedHtml =>
        { html := sanitizedHtml, requiresPostRender := false, postRenderType := none }

/-! ## RSS list rendering (src/unnamed/part_006:419-439, 958-993) -/

/-- Embedding of `IRssDisplayConfig` (src/unnamed/part_006:419-430), the
fields used by the list layout. -/
structure RssDisplayConfig where
  layout : String
  showDate : Bool
  showDescription : Bool
  showImage : Bool
  showAuthor : Bool
  descriptionLimit : Nat
  dateFormat : String
  linkTarget : String
deriving DecidableEq, Repr

/-- Embedding of `IRssRenderItem` (src/unnamed/part_006:432-439).
`thumbnail` is `none` for `null`. -/
structure RssRenderItem where
  title : String
  link : String
  description : String
  publishedDate : JsDate
  author : String
  thumbnail : Option String
deriving DecidableEq, Repr

/-- The thumbnail fragment of an RSS list item
(src/unnamed/part_006:960-962); empty when hidden or absent. -/
def rssListThumbnail (config : RssDisplayConfig) (item : RssRenderItem) : String :=
  match item.thumbnail with
  | none => ""
  | some t =>
    if config.showImage && t ≠ "" then
      "<div class=\"picanvas-rss-thumbnail\"><img src=\"" ++ encodeHtml t ++
        "\" alt=\"\" loading=\"lazy\" /></div>"
    else ""

/-- The date fragment of an RSS list item (src/unnamed/part_006:964-966).
`nowMs` models the `new Date()` taken inside `formatRssDate`. -/
def rssListDate (nowMs : Int) (config : RssDisplayConfig) (item : RssRenderItem) : String :=
  if config.showDate then
    "<span class=\"picanvas-rss-date\">" ++
      formatRssDate nowMs item.publishedDate config.dateFormat ++ "</span>"
  else ""

/-- The author fragment of an RSS list item (src/unnamed/part_006:968-970). -/
def rssListAuthor (config : RssDisplayConfig) (item : RssRenderItem) : String :=
  if config.showAuthor && item.author ≠ "" then
    "<span class=\"picanvas-rss-author\">" ++ encodeHtml item.author ++ "</span>"
  else ""

/-- The meta fragment of an RSS list item (src/unnamed/part_006:972-974). -/
def rssListMeta (nowMs : Int) (config : RssDisplayConfig) (item : RssRenderItem) : String :=
  let date := rssListDate nowMs config item
  let author := rssListAuthor config item
  if date ≠ "" || author ≠ "" then
    "<div class=\"picanvas-rss-meta\">" ++ date ++
      (if date ≠ "" && author ≠ "" then " • " else "") ++ author ++ "</div>"
  else ""

/-- The description fragment of an RSS list item
(src/unnamed/part_006:976-978): the description is truncated first and
HTML-escaped afterwards. -/
def rssListDescription (config : RssDisplayConfig) (item : RssRenderItem) : String :=
  if config.showDescription && item.description ≠ "" then
    "<div class=\"picanvas-rss-description\">" ++
      encodeHtml (truncateRssText item.description config.descriptionLimit) ++ "</div>"
  else ""

/-- One item of the RSS list layout (src/unnamed/part_006:980-991). -/
def rssListItemHtml (nowMs : Int) (config : RssDisplayConfig) (item : RssRenderItem) : String :=
  "\n        <article class=\"picanvas-rss-item\">\n          " ++
    rssListThumbnail config item ++
    "\n          <div class=\"picanvas-rss-content\">\n            <a href=\"" ++
    encodeHtml item.link ++ "\" target=\"" ++ config.linkTarget ++
    "\" rel=\"noopener noreferrer\" class=\"picanvas-rss-title\">\n              " ++
    encodeHtml item.title ++ "\n            </a>\n            " ++
    rssListMeta nowMs config item ++ "\n            " ++
    rssListDescription config item ++
    "\n          </div>\n        </article>\n      "

/-- Embedding of `ContentRenderer.renderRssList`
(src/unnamed/part_006:958-993): map the item template over the items and
join with the empty separator. -/
def renderRssList (nowMs : Int) (items : List RssRenderItem)
    (config : RssDisplayConfig) : String :=
  String.join (items.map (rssListItemHtml nowMs config))

/-! ## Sanitizer policy over parsed markup (spec §4.1, used by C2)

`DOMPurify` operates on the browser's parsed DOM tree, so the no-script /
no-handler invariant is stated over a tree of elements, text and
attributes; how deeply a forbidden node is nested is the tree depth. -/

mutual
/-- A node of parsed markup: a text node, or an element with a tag name,
attributes and children. -/
inductive HtmlNode where
  | text : String → HtmlNode
  | elem : String → List (String × String) → HtmlForest → HtmlNode
/-- A sequence of sibling markup nodes. -/
inductive HtmlForest where
  | nil : HtmlForest
  | cons : HtmlNode → HtmlForest → HtmlForest
end

/-- Is `name` an inline event-handler attribute name (`on*`,
case-insensitive)? -/
def isHandlerAttr (name : String) : Bool :=
  List.isPrefixOf "on".data (toLowerJs name).data

mutual
/-- Modelled from the spec: the Sanitizer Policy choke point (§4.1),
implemented in the source by the external DOMPurify library, which is not
part of this repository.  Per the spec, a profile forbids a set of tags
and "all `on*` handler attributes": a forbidden element is removed with
its subtree, handler attributes are dropped, and the walk recurses into
the children of every kept element. -/
def sanitizeNode (forbidTags : List String) : HtmlNode → Option HtmlNode
  | HtmlNode.text s => some (HtmlNode.text s)
  | HtmlNode.elem tag attrs children =>
    if forbidTags.contains (toLowerJs tag) then none
    else some (HtmlNode.elem tag
      (attrs.filter fun kv => !isHandlerAttr kv.1)
      (sanitizeForest forbidTags children))
/-- Modelled from the spec: the Sanitizer Policy applied to a sequence of
sibling nodes. -/
def sanitizeForest (forbidTags : List String) : HtmlForest → HtmlForest
  | HtmlForest.nil => HtmlForest.nil
  | HtmlForest.cons n rest =>
    match sanitizeNode forbidTags n with
    | none => sanitizeForest forbidTags rest
    | some n' => HtmlForest.cons n' (sanitizeForest forbidTags rest)
end

mutual
/-- Does a node contain, at any depth, a script element or an element
carrying an inline event-handler attribute? -/
def nodeHasScriptOrHandler : HtmlNode → Bool
  | HtmlNode.text _ => false
  | HtmlNode.elem tag attrs children =>
    toLowerJs tag == "script" || attrs.any (fun kv => isHandlerAttr kv.1) ||
      forestHasScriptOrHandler children
/-- Does any node of the sequence contain a script element or a handler
attribute at any depth? -/
def forestHasScriptOrHandler : HtmlForest → Bool
  | HtmlForest.nil => false
  | HtmlForest.cons n rest =>
    nodeHasScriptOrHandler n || forestHasScriptOrHandler rest
end

/-- The `FORBID_TAGS` of `renderMarkdown`'s DOMPurify profile
(src/unnamed/part_006:544). -/
def markdownForbidTags : List String := ["style", "script"]

/-- The `FORBID_TAGS` of `renderHtml`'s DOMPurify profile
(src/unnamed/part_006:572). -/
def htmlForbidTags : List String := ["script"]

/-- The parsed error fragment of `renderMarkdown`'s catch branch
(src/unnamed/part_006:551). -/
def markdownErrorForest : HtmlForest :=
  HtmlForest.cons
    (HtmlNode.elem "p" [("class", "picanvas-render-error")]
      (HtmlForest.cons (HtmlNode.text "Error rendering Markdown content") HtmlForest.nil))
    HtmlForest.nil

/-- The parsed error fragment of `renderHtml`'s catch branch
(src/unnamed/part_006:579). -/
def htmlErrorForest : HtmlForest :=
  HtmlForest.cons
    (HtmlNode.elem "p" [("class", "picanvas-render-error")]
      (HtmlForest.cons (HtmlNode.text "Error rendering HTML content") HtmlForest.nil))
    HtmlForest.nil

/-- Tree-level view of `renderMarkdown` (src/unnamed/part_006:528-553):
the markdown parser `marked.parse` is an external collaborator modelled by
the arbitrary `parse` outcome (`Except.error` = thrown), and the sanitize
step is the spec-modelled Sanitizer Policy with the strict profile. -/
def renderMarkdownTree (parse : Except String HtmlForest) (content : JsVal) : HtmlForest :=
  match content with
  | JsVal.nonString => HtmlForest.nil
  | JsVal.str s =>
    if s = "" then HtmlForest.nil
    else
      match parse with
      | Except.error _ => markdownErrorForest
      | Except.ok rawTree => sanitizeForest markdownForbidTags rawTree

/-- Tree-level view of `renderHtml` (src/unnamed/part_006:558-581): the
raw payload's parsed tree `rawTree` is arbitrary, and the sanitize step is
the spec-modelled Sanitizer Policy with the iframe-permitting profile. -/
def renderHtmlTree (rawTree : HtmlForest) (content : JsVal) : HtmlForest :=
  match content with
  | JsVal.nonString => HtmlForest.nil
  | JsVal.str s =>
    if s = "" then HtmlForest.nil
    else sanitizeForest htmlForbidTags rawTree

/-! ## Tab controller state (src/src/webparts/piCanvas/AddTabs.js)

The controller's state is the list of tab headers, the list of content
panels (paired 1:1 by position) and the closure variable `u`, the active
index.  Only the DOM attributes and classes the controller itself reads
and writes are modelled. -/

/-- The attributes of one tab header element that `AddTabs.js` manages:
`data-placeholder`, `aria-selected`, `tabindex` (`0` versus `-1`) and the
`addui-Tabs-active` class. -/
structure TabAttrs where
  placeholder : Bool
  ariaSelected : Bool
  tabindexZero : Bool
  activeClass : Bool
deriving DecidableEq, Repr

/-- The attributes of one content panel that `AddTabs.js` manages: the
`addui-Tabs-active` class, presence of `aria-hidden`, and the
`data-lazy` / `data-lazy-loaded` flags. -/
structure PanelAttrs where
  activeClass : Bool
  ariaHidden : Bool
  lazy : Bool
  lazyLoaded : Bool
deriving DecidableEq, Repr

/-- The tab controller state: tab headers, panels, and the closure
variable `u` (the active index). -/
structure TabsState where
  tabs : List TabAttrs
  panels : List PanelAttrs
  activeIdx : Nat
deriving DecidableEq, Repr

/-- The custom events the controller triggers: `picanvas:lazy-load` with
its `tabIndex`, and `picanvas:tab-change` with the new index. -/
inductive TabEvent where
  | lazyLoad : Nat → TabEvent
  | tabChange : Nat → TabEvent
deriving DecidableEq, Repr

/-- Apply `f` to the element at position `i`, leaving the rest unchanged
(the effect of `list.eq(i).someJQueryMutation()`). -/
def updateAt (i : Nat) (f : α → α) : List α → List α
  | [] => []
  | x :: xs =>
    match i with
    | 0 => f x :: xs
    | j + 1 => x :: updateAt j f xs

/-- `c.eq(newIndex).attr('data-placeholder') === 'true'`: `false` when the
index is out of range (an empty jQuery set reads `undefined`). -/
def placeholderAt (s : TabsState) (i : Nat) : Bool :=
  ((s.tabs.get? i).map TabAttrs.placeholder).getD false

/-- Is panel `i`'s lazy content already loaded (or not lazy at all)?  Used
to phrase when `activateTab` emits no `picanvas:lazy-load` event. -/
def panelLoadedAt (s : TabsState) (i : Nat) : Bool :=
  match s.panels.get? i with
  | some p => !p.lazy || p.lazyLoaded
  | none => false

/-- Embedding of `activateTab(newIndex, focusTab)`
(src/src/webparts/piCanvas/AddTabs.js:416-537).  Returns the new state,
the function's return value, and the events it triggers in order.  Focus
movement and the deferred banner fix-ups (DOM side effects outside the
modelled state) are not part of the state. -/
def activateTab (s : TabsState) (newIndex : Nat) : TabsState × Bool × List TabEvent :=
  if placeholderAt s newIndex then (s, false, [])
  else
    let panels1 := s.panels.map fun p => { p with activeClass := false, ariaHidden := true }
    let panels2 := updateAt newIndex
      (fun p => { p with activeClass := true, ariaHidden := false }) panels1
    let tabs1 := s.tabs.map fun t =>
      { t with ariaSelected := false, tabindexZero := false, activeClass := false }
    let tabs2 := updateAt newIndex
      (fun t => { t with ariaSelected := true, tabindexZero := true, activeClass := true }) tabs1
    let needsLazy :=
      match panels2.get? newIndex with
      | some p => p.lazy && !p.lazyLoaded
      | none => false
    let panels3 :=
      if needsLazy then updateAt newIndex (fun p => { p with lazyLoaded := true }) panels2
      else panels2
    let events :=
      (if needsLazy then [TabEvent.lazyLoad newIndex] else []) ++ [TabEvent.tabChange newIndex]
    ({ tabs := tabs2, panels := panels3, activeIdx := newIndex }, true, events)

/-- The click handler (src/src/webparts/piCanvas/AddTabs.js:545-556):
activates only when the clicked index differs from the active index `u`. -/
def clickActivate (s : TabsState) (newIndex : Nat) : TabsState × List TabEvent :=
  if newIndex ≠ s.activeIdx then
    let r := activateTab s newIndex
    (r.1, r.2.2)
  else (s, [])

/-- The keydown handler's Enter/Space case
(src/src/webparts/piCanvas/AddTabs.js:602-607): activates the focused tab
unconditionally. -/
def enterActivate (s : TabsState) (currentIndex : Nat) : TabsState × List TabEvent :=
  let r := activateTab s currentIndex
  (r.1, r.2.2)

/-- The deep-linking entry point `picanvas-activate-tab`
(src/src/webparts/piCanvas/AddTabs.js:632-636): activates whenever the
index is in range. -/
def deepLinkActivate (s : TabsState) (index : Nat) : TabsState × List TabEvent :=
  if index < s.tabs.length then
    let r := activateTab s index
    (r.1, r.2.2)
  else (s, [])

/-- What the controller reads from a tab header in the source markup at
initialisation: its `data-placeholder` flag. -/
structure InitTab where
  placeholder : Bool
deriving DecidableEq, Repr

/-- What the controller reads from a panel in the source markup at
initialisation: whether it carried the `active` class, and its
`data-lazy` flag. -/
structure InitPanel where
  hadActiveClass : Bool
  lazy : Bool
deriving DecidableEq, Repr

/-- The loop of src/src/webparts/piCanvas/AddTabs.js:245-247: `u` ends as
the index of the last panel whose markup carried the `active` class
(default `0`). -/
def lastActiveIdxGo (cur idx : Nat) : List Bool → Nat
  | [] => cur
  | b :: rest => lastActiveIdxGo (if b then idx else cur) (idx + 1) rest

/-- The initial active index chosen from the markup's `active` classes. -/
def lastActiveIdx (flags : List Bool) : Nat :=
  lastActiveIdxGo 0 0 flags

/-- Map with the element's position, starting at `i`. -/
def mapWithIdx (f : Nat → α → β) : Nat → List α → List β
  | _, [] => []
  | i, x :: xs => f i x :: mapWithIdx f (i + 1) xs

/-- Embedding of the controller's initialisation
(src/src/webparts/piCanvas/AddTabs.js:226-258 and 366-403, plus the
first-panel lazy marking of lines 651-658): choose `u` from the markup,
set the active classes on tab `u` and panel `u`, and write the ARIA
attributes for every index. -/
def initState (tabs : List InitTab) (panels : List InitPanel) : TabsState :=
  let u := lastActiveIdx (panels.map InitPanel.hadActiveClass)
  { tabs := mapWithIdx (fun j t =>
      { placeholder := t.placeholder, ariaSelected := j == u,
        tabindexZero := j == u, activeClass := j == u }) 0 tabs,
    panels := mapWithIdx (fun j p =>
      { activeClass := j == u, ariaHidden := j != u, lazy := p.lazy,
        lazyLoaded := (j == u) && p.lazy }) 0 panels,
    activeIdx := u }

/-- The ARIA/class agreement invariant: the active index is in range, tabs
and panels pair 1:1, the tab at the active index (and only it) is
selected, focusable and active-classed, and exactly the panels other than
the active one carry `aria-hidden`. -/
def canonicalState (s : TabsState) : Bool :=
  decide (s.activeIdx < s.tabs.length) && (s.tabs.length == s.panels.length) &&
  ((List.range s.tabs.length).all fun j =>
    (match s.tabs.get? j with
     | some t =>
       (t.ariaSelected == (j == s.activeIdx)) && (t.tabindexZero == (j == s.activeIdx)) &&
         (t.activeClass == (j == s.activeIdx))
     | none => false) &&
    (match s.panels.get? j with
     | some p =>
       (p.activeClass == (j == s.activeIdx)) && (p.ariaHidden == (j != s.activeIdx))
     | none => false))

/-! ## Banner mutation observer (src/src/webparts/piCanvas/AddTabs.js:283-350) -/

/-- A watched `fullWidthImageLayout` container: whether it carries the
`picanvas-height-locked` class, and its inline `width` / `margin-left`
(empty string when unset, as in the DOM). -/
structure LayoutEl where
  heightLocked : Bool
  styleWidth : String
  styleMarginLeft : String
deriving DecidableEq, Repr

/-- One MutationObserver record as the callback reads it: its type, the
changed attribute name, the target element, and the number of added
nodes. -/
structure MutationRec where
  mtype : String
  attributeName : String
  target : LayoutEl
  addedNodes : Nat
deriving DecidableEq, Repr

/-- The per-record test of the observer callback
(src/src/webparts/piCanvas/AddTabs.js:307-325): a style-attribute change
on an element that is not height-locked and has a reset width or margin,
or any child additions. -/
def mutationNeedsFix (m : MutationRec) : Bool :=
  (if m.mtype == "attributes" && m.attributeName == "style" then
     if !m.target.heightLocked then
       (m.target.styleWidth ≠ "" && m.target.styleWidth ≠ "100%") ||
         (m.target.styleMarginLeft ≠ "" && m.target.styleMarginLeft ≠ "0px")
     else false
   else false) ||
  (m.mtype == "childList" && m.addedNodes > 0)

/-- Embedding of the banner MutationObserver callback
(src/src/webparts/piCanvas/AddTabs.js:292-337): `true` when the callback
schedules a (debounced) corrective `fixBannerWebparts` pass, `false` when
it returns without scheduling.  `layouts` is the panel's current list of
watched `fullWidthImageLayout` containers. -/
def bannerObserverSchedulesFix (layouts : List LayoutEl)
    (mutations : List MutationRec) : Bool :=
  if layouts.all LayoutEl.heightLocked && layouts.length > 0 then false
  else mutations.any mutationNeedsFix

/-- Scanner for orphaned HTML entities: every ampersand must begin one of
the five complete entities that `encodeHtml` produces. -/
def noOrphanEntity : List Char → Bool
  | [] => true
  | '&' :: rest =>
    (match rest with
     | 'a' :: 'm' :: 'p' :: ';' :: rest2 => noOrphanEntity rest2
     | 'l' :: 't' :: ';' :: rest2 => noOrphanEntity rest2
     | 'g' :: 't' :: ';' :: rest2 => noOrphanEntity rest2
     | 'q' :: 'u' :: 'o' :: 't' :: ';' :: rest2 => noOrphanEntity rest2
     | '#' :: '3' :: '9' :: ';' :: rest2 => noOrphanEntity rest2
     | _ => false)
  | _ :: rest => noOrphanEntity rest

/-- No two adjacent hyphens anywhere in the list. -/
def noDoubleDash : List Char → Bool
  | [] => true
  | [_] => true
  | c :: d :: rest => !(c = '-' && d = '-') && noDoubleDash (d :: rest)

/-- The claim's identifier pattern `^[A-Za-z_-][A-Za-z0-9_-]*$`. -/
def matchesClaimIdPattern (s : String) : Bool :=
  match s.data with
  | [] => false
  | c :: rest => (c.isAlpha || c = '_' || c = '-') && rest.all allowedIdChar

/-- The sanitised identifier before the fallback check
(src/unnamed/part_006:871-879). -/
def sanitizedId (str : String) : List Char :=
  stripEdgeDashes (collapseDashes (prefixIfDigit (replaceSpecials str.data)))

/-- The literal allow predicate of Claim C1's wording: the hostname equals
an allow-listed entry (built-in trusted domains merged with the caller's
additional domains) or is a proper subdomain of one. -/
def specAllowedLiteral (hostname : String) (additionalDomains : List String) : Bool :=
  (DEFAULT_TRUSTED_DOMAINS ++ additionalDomains).any fun d =>
    hostname == d || strEndsWith hostname ("." ++ d)

/-- The allow predicate the source actually computes: both the hostname
and every allow-list entry are first stripped of one leading `www.` and
lower-cased, then compared for equality or proper-subdomain suffix. -/
def specAllowedNormalized (hostname : String) (additionalDomains : List String) : Bool :=
  (DEFAULT_TRUSTED_DOMAINS ++ additionalDomains).any fun d =>
    toLowerJs (stripWww hostname) == toLowerJs (stripWww d) ||
      strEndsWith (toLowerJs (stripWww hostname)) ("." ++ toLowerJs (stripWww d))

/-! ## Theorems -/

/-- Claim C8: once every watched layout container of a panel carries the
height-locked class, the banner mutation-observer callback schedules no
further corrective layout pass, and a style mutation whose target is
height-locked never by itself requests a fix — observed mutations on
locked widgets are ignored. -/
theorem c8_locked_widgets_ignored (layouts : List LayoutEl)
    (mutations : List MutationRec) (hne : layouts ≠ [])
    (hlock : layouts.all LayoutEl.heightLocked = true) :
    bannerObserverSchedulesFix layouts mutations = false ∧
    ∀ m ∈ mutations, m.mtype = "attributes" → m.target.heightLocked = true →
      mutationNeedsFix m = false := by
  constructor
  · have hpos : 0 < layouts.length := List.length_pos.mpr hne
    simp [bannerObserverSchedulesFix, hlock, hpos]
  · intro m _ hm hl
    simp [mutationNeedsFix, hm, hl]

/-- Witness for C8 at a concrete locked layout and a child-list mutation
burst. -/
theorem c8_locked_widgets_ignored_witness :
    bannerObserverSchedulesFix [⟨true, "", ""⟩]
      [⟨"childList", "", ⟨true, "", ""⟩, 3⟩, ⟨"attributes", "style", ⟨true, "50vw", "10px"⟩, 0⟩]
      = false :=
  (c8_locked_widgets_ignored [⟨true, "", ""⟩]
    [⟨"childList", "", ⟨true, "", ""⟩, 3⟩, ⟨"attributes", "style", ⟨true, "50vw", "10px"⟩, 0⟩]
    (by decide) (by decide)).1

/-- Claim C7: `renderMarkdown` and `renderHtml` are total at their public
boundary — empty or non-string payloads yield the empty-content result,
a thrown parse or sanitize exception is caught and converted to the
error-state fragment, and otherwise the sanitised markup is returned; no
case propagates an exception. -/
theorem c7_renderers_non_throwing
    (parse sanitize sanitizeH : String → Except String String) (v : JsVal) :
    ((v = JsVal.nonString ∨ v = JsVal.str "") →
      renderMarkdown parse sanitize v = ⟨"", false, none⟩ ∧
      renderHtml sanitizeH v = ⟨"", false, none⟩) ∧
    (∀ s, v = JsVal.str s → s ≠ "" →
      ((∀ e, parse s = Except.error e →
        renderMarkdown parse sanitize v = ⟨markdownErrorHtml, false, none⟩) ∧
       (∀ raw e, parse s = Except.ok raw → sanitize raw = Except.error e →
        renderMarkdown parse sanitize v = ⟨markdownErrorHtml, false, none⟩) ∧
       (∀ raw clean, parse s = Except.ok raw → sanitize raw = Except.ok clean →
        renderMarkdown parse sanitize v = ⟨clean, false, none⟩) ∧
       (∀ e, sanitizeH s = Except.error e →
        renderHtml sanitizeH v = ⟨htmlErrorHtml, false, none⟩) ∧
       (∀ clean, sanitizeH s = Except.ok clean →
        renderHtml sanitizeH v = ⟨clean, false, none⟩))) := by
  constructor
  · rintro (rfl | rfl) <;> simp [renderMarkdown, renderHtml]
  · rintro s rfl hs
    refine ⟨fun e he => ?_, fun raw e hraw he => ?_, fun raw clean hraw hclean => ?_,
      fun e he => ?_, fun clean hclean => ?_⟩ <;>
      simp [renderMarkdown, renderHtml, hs, *]

/-- Witness for C7: a parser that throws is converted to the Markdown
error fragment, and an empty payload yields the empty result. -/
theorem c7_renderers_non_throwing_witness :
    renderMarkdown (fun _ => Except.error "boom") (fun s => Except.ok s)
      (JsVal.str "# hi") = ⟨markdownErrorHtml, false, none⟩ ∧
    renderHtml (fun s => Except.ok s) (JsVal.str "") = ⟨"", false, none⟩ := by
  constructor
  · exact ((c7_renderers_non_throwing (fun _ => Except.error "boom") (fun s => Except.ok s)
      (fun s => Except.ok s) (JsVal.str "# hi")).2 "# hi" rfl (by decide)).1 "boom" rfl
  · exact ((c7_renderers_non_throwing (fun _ => Except.error "boom") (fun s => Except.ok s)
      (fun s => Except.ok s) (JsVal.str "")).1 (Or.inr rfl)).2

/-- Floor division by a positive constant, upper bound direction. -/
theorem ediv_lt_of_lt_mul {a b c : Int} (hc : 0 < c) (h : a < b * c) : a / c < b :=
  (Int.ediv_lt_iff_lt_mul hc).mpr h

/-- Floor division by a positive constant, lower bound direction. -/
theorem le_ediv_of_mul_le {a b c : Int} (hc : 0 < c) (h : a * c ≤ b) : a ≤ b / c :=
  (Int.le_ediv_iff_mul_le hc).mpr h

/-- The relative branch of `formatRssDate`, spelled out on the time
difference. -/
theorem formatRssDate_relative_eq (nowMs : Int) (d : JsDate) (hv : d.valid = true) :
    formatRssDate nowMs d "relative" =
      (let diffMins := (nowMs - d.timeMs) / 60000
       let diffHours := diffMins / 60
       let diffDays := diffHours / 24
       if diffMins < 1 then "Just now"
       else if diffMins < 60 then toString diffMins ++ "m ago"
       else if diffHours < 24 then toString diffHours ++ "h ago"
       else if diffDays = 1 then "Yesterday"
       else if diffDays < 7 then toString diffDays ++ "d ago"
       else if diffDays < 30 then toString (diffDays / 7) ++ "w ago"
       else formatRssDateAbsolute d "relative") := by
  have h60000 : (0 : Int) ≤ 60000 := by norm_num
  have h60 : (0 : Int) ≤ 60 := by norm_num
  have h24 : (0 : Int) ≤ 24 := by norm_num
  have h7 : (0 : Int) ≤ 7 := by norm_num
  simp only [formatRssDate, hv, Bool.not_true, Int.fdiv_eq_ediv _ h60000,
    Int.fdiv_eq_ediv _ h60, Int.fdiv_eq_ediv _ h24, Int.fdiv_eq_ediv _ h7]
  rfl

/-- Claim C5: in relative mode, for every valid date, `formatRssDate`
returns `Just now` under one minute, `{n}m ago` under sixty minutes,
`{n}h ago` under twenty-four hours (hour floor), `Yesterday` exactly when
the floored day difference is one, `{n}d ago` under seven days, `{n}w ago`
under thirty days, and from thirty days on falls through to the absolute
date format. -/
theorem c5_relative_date_boundaries (nowMs : Int) (d : JsDate) (hv : d.valid = true) :
    (0 ≤ nowMs - d.timeMs → nowMs - d.timeMs < 60000 →
      formatRssDate nowMs d "relative" = "Just now") ∧
    (60000 ≤ nowMs - d.timeMs → nowMs - d.timeMs < 3600000 →
      formatRssDate nowMs d "relative" =
        toString ((nowMs - d.timeMs) / 60000) ++ "m ago") ∧
    (3600000 ≤ nowMs - d.timeMs → nowMs - d.timeMs < 86400000 →
      formatRssDate nowMs d "relative" =
        toString ((nowMs - d.timeMs) / 60000 / 60) ++ "h ago") ∧
    ((nowMs - d.timeMs) / 60000 / 60 / 24 = 1 →
      formatRssDate nowMs d "relative" = "Yesterday") ∧
    (86400000 ≤ nowMs - d.timeMs → nowMs - d.timeMs < 172800000 →
      formatRssDate nowMs d "relative" = "Yesterday") ∧
    (172800000 ≤ nowMs - d.timeMs → nowMs - d.timeMs < 604800000 →
      formatRssDate nowMs d "relative" =
        toString ((nowMs - d.timeMs) / 60000 / 60 / 24) ++ "d ago") ∧
    (604800000 ≤ nowMs - d.timeMs → nowMs - d.timeMs < 2592000000 →
      formatRssDate nowMs d "relative" =
        toString ((nowMs - d.timeMs) / 60000 / 60 / 24 / 7) ++ "w ago") ∧
    (2592000000 ≤ nowMs - d.timeMs →
      formatRssDate nowMs d "relative" = formatRssDateAbsolute d "relative") := by
  have c60000 : (0 : Int) < 60000 := by norm_num
  have c60 : (0 : Int) < 60 := by norm_num
  have c24 : (0 : Int) < 24 := by norm_num
  rw [formatRssDate_relative_eq nowMs d hv]
  set E := nowMs - d.timeMs with hE
  refine ⟨?_, ?_, ?_, ?_, ?_, ?_, ?_, ?_⟩
  · intro h0 h1
    have hm : E / 60000 < 1 := ediv_lt_of_lt_mul c60000 (by linarith)
    simp [hm]
  · intro h0 h1
    have hm1 : 1 ≤ E / 60000 := le_ediv_of_mul_le c60000 (by linarith)
    have hm60 : E / 60000 < 60 := ediv_lt_of_lt_mul c60000 (by linarith)
    simp [not_lt.mpr hm1, hm60]
  · intro h0 h1
    have hm60 : 60 ≤ E / 60000 := le_ediv_of_mul_le c60000 (by linarith)
    have hm1 : 1 ≤ E / 60000 := by linarith
    have hm1440 : E / 60000 < 1440 := ediv_lt_of_lt_mul c60000 (by linarith)
    have hh24 : E / 60000 / 60 < 24 := ediv_lt_of_lt_mul c60 (by linarith)
    simp [not_lt.mpr hm1, not_lt.mpr hm60, hh24]
  · intro hdd
    have hh24 : 24 ≤ E / 60000 / 60 := by
      have : 1 ≤ E / 60000 / 60 / 24 := le_of_eq hdd.symm
      have := (Int.le_ediv_iff_mul_le c24).mp this
      linarith
    have hm1440 : 1440 ≤ E / 60000 := by
      have := (Int.le_ediv_iff_mul_le c60).mp hh24
      linarith
    have hm60 : 60 ≤ E / 60000 := by linarith
    have hm1 : 1 ≤ E / 60000 := by linarith
    simp [not_lt.mpr hm1, not_lt.mpr hm60, not_lt.mpr hh24, hdd]
  · intro h0 h1
    have hm1440 : 1440 ≤ E / 60000 := le_ediv_of_mul_le c60000 (by linarith)
    have hm2880 : E / 60000 < 2880 := ediv_lt_of_lt_mul c60000 (by linarith)
    have hh24 : 24 ≤ E / 60000 / 60 := le_ediv_of_mul_le c60 (by linarith)
    have hh48 : E / 60000 / 60 < 48 := ediv_lt_of_lt_mul c60 (by linarith)
    have hd1 : 1 ≤ E / 60000 / 60 / 24 := le_ediv_of_mul_le c24 (by linarith)
    have hd2 : E / 60000 / 60 / 24 < 2 := ediv_lt_of_lt_mul c24 (by linarith)
    have hdd : E / 60000 / 60 / 24 = 1 := by omega
    have hm60 : 60 ≤ E / 60000 := by linarith
    have hm1 : 1 ≤ E / 60000 := by linarith
    simp [not_lt.mpr hm1, not_lt.mpr hm60, not_lt.mpr hh24, hdd]
  · intro h0 h1
    have hm2880 : 2880 ≤ E / 60000 := le_ediv_of_mul_le c60000 (by linarith)
    have hm10080 : E / 60000 < 10080 := ediv_lt_of_lt_mul c60000 (by linarith)
    have hh48 : 48 ≤ E / 60000 / 60 := le_ediv_of_mul_le c60 (by linarith)
    have hh168 : E / 60000 / 60 < 168 := ediv_lt_of_lt_mul c60 (by linarith)
    have hd2 : 2 ≤ E / 60000 / 60 / 24 := le_ediv_of_mul_le c24 (by linarith)
    have hd7 : E / 60000 / 60 / 24 < 7 := ediv_lt_of_lt_mul c24 (by linarith)
    have hm1 : 1 ≤ E / 60000 := by linarith
    have hm60 : 60 ≤ E / 60000 := by linarith
    have hh24 : 24 ≤ E / 60000 / 60 := by linarith
    have hdd : E / 60000 / 60 / 24 ≠ 1 := by omega
    simp [not_lt.mpr hm1, not_lt.mpr hm60, not_lt.mpr hh24, hdd, hd7]
  · intro h0 h1
    have hm10080 : 10080 ≤ E / 60000 := le_ediv_of_mul_le c60000 (by linarith)
    have hm43200 : E / 60000 < 43200 := ediv_lt_of_lt_mul c60000 (by linarith)
    have hh168 : 168 ≤ E / 60000 / 60 := le_ediv_of_mul_le c60 (by linarith)
    have hh720 : E / 60000 / 60 < 720 := ediv_lt_of_lt_mul c60 (by linarith)
    have hd7 : 7 ≤ E / 60000 / 60 / 24 := le_ediv_of_mul_le c24 (by linarith)
    have hd30 : E / 60000 / 60 / 24 < 30 := ediv_lt_of_lt_mul c24 (by linarith)
    have hm1 : 1 ≤ E / 60000 := by linarith
    have hm60 : 60 ≤ E / 60000 := by linarith
    have hh24 : 24 ≤ E / 60000 / 60 := by linarith
    have hdd : E / 60000 / 60 / 24 ≠ 1 := by omega
    simp [not_lt.mpr hm1, not_lt.mpr hm60, not_lt.mpr hh24, hdd,
      not_lt.mpr hd7, hd30]
  · intro h0
    have hm43200 : 43200 ≤ E / 60000 := le_ediv_of_mul_le c60000 (by linarith)
    have hh720 : 720 ≤ E / 60000 / 60 := le_ediv_of_mul_le c60 (by linarith)
    have hd30 : 30 ≤ E / 60000 / 60 / 24 := le_ediv_of_mul_le c24 (by linarith)
    have hm1 : 1 ≤ E / 60000 := by linarith
    have hm60 : 60 ≤ E / 60000 := by linarith
    have hh24 : 24 ≤ E / 60000 / 60 := by linarith
    have hd7 : 7 ≤ E / 60000 / 60 / 24 := by linarith
    have hdd : E / 60000 / 60 / 24 ≠ 1 := by omega
    simp [not_lt.mpr hm1, not_lt.mpr hm60, not_lt.mpr hh24, hdd,
      not_lt.mpr hd7, not_lt.mpr hd30]

/-- Witness for C5 at the spec's concrete examples: 30 seconds old is
`Just now`, 90 minutes old is `1h ago` (hour floor), 24 hours minus one
minute is `23h ago`, exactly 48 hours is `2d ago`. -/
theorem c5_relative_date_boundaries_witness :
    formatRssDate 30000 ⟨true, 0, 1, 0, 1970⟩ "relative" = "Just now" ∧
    formatRssDate 5400000 ⟨true, 0, 1, 0, 1970⟩ "relative" = "1h ago" ∧
    formatRssDate 86340000 ⟨true, 0, 1, 0, 1970⟩ "relative" = "23h ago" ∧
    formatRssDate 172800000 ⟨true, 0, 1, 0, 1970⟩ "relative" = "2d ago" := by
  refine ⟨?_, ?_, ?_, ?_⟩
  · exact ((c5_relative_date_boundaries 30000 ⟨true, 0, 1, 0, 1970⟩ rfl).1
      (by norm_num) (by norm_num))
  · exact ((c5_relative_date_boundaries 5400000 ⟨true, 0, 1, 0, 1970⟩ rfl).2.2.1
      (by norm_num) (by norm_num)).trans (by decide)
  · exact ((c5_relative_date_boundaries 86340000 ⟨true, 0, 1, 0, 1970⟩ rfl).2.2.1
      (by norm_num) (by norm_num)).trans (by decide)
  · exact ((c5_relative_date_boundaries 172800000 ⟨true, 0, 1, 0, 1970⟩ rfl).2.2.2.2.2.1
      (by norm_num) (by norm_num)).trans (by decide)

/-- `replaceAllChar` distributes over append. -/
theorem replaceAllChar_append (x y : List Char) (c : Char) (r : List Char) :
    replaceAllChar (x ++ y) c r = replaceAllChar x c r ++ replaceAllChar y c r := by
  simp [replaceAllChar]

/-- The five chained replaces of `encodeHtml` act character-wise. -/
theorem encode_chain_eq_flatMap (l : List Char) :
    replaceAllChar
      (replaceAllChar
        (replaceAllChar
          (replaceAllChar
            (replaceAllChar l '&' "&amp;".data)
            '<' "&lt;".data)
          '>' "&gt;".data)
        '"' "&quot;".data)
      '\'' "&#39;".data
    = l.flatMap encodeChar := by
  induction l with
  | nil => rfl
  | cons c rest ih =>
    have hcons : ∀ (a : Char) (r : List Char) (xs : List Char),
        replaceAllChar (c :: xs) a r =
          (if c = a then r else [c]) ++ replaceAllChar xs a r := by
      intro a r xs
      simp [replaceAllChar]
    by_cases h1 : c = '&'
    · subst h1
      simp only [hcons, replaceAllChar_append, ih, List.flatMap_cons]
      rfl
    · by_cases h2 : c = '<'
      · subst h2
        simp only [hcons, replaceAllChar_append, ih, List.flatMap_cons]
        rfl
      · by_cases h3 : c = '>'
        · subst h3
          simp only [hcons, replaceAllChar_append, ih, List.flatMap_cons]
          rfl
        · by_cases h4 : c = '"'
          · subst h4
            simp only [hcons, replaceAllChar_append, ih, List.flatMap_cons]
            rfl
          · by_cases h5 : c = '\''
            · subst h5
              simp only [hcons, replaceAllChar_append, ih, List.flatMap_cons]
              rfl
            · simp only [hcons, replaceAllChar_append, ih, List.flatMap_cons]
              simp [encodeChar, replaceAllChar, h1, h2, h3, h4, h5]

/-- `encodeHtml` maps each character independently to its entity. -/
theorem encodeHtml_data (s : String) :
    (encodeHtml s).data = s.data.flatMap encodeChar := by
  by_cases h : s = ""
  · subst h; rfl
  · simp only [encodeHtml, h, if_false]
    exact encode_chain_eq_flatMap s.data


/-- Scanner step: a complete `&amp;` is consumed whole. -/
theorem noOrphanEntity_amp (x : List Char) :
    noOrphanEntity ('&' :: 'a' :: 'm' :: 'p' :: ';' :: x) = noOrphanEntity x := rfl

/-- Scanner step: a complete `&lt;` is consumed whole. -/
theorem noOrphanEntity_lt (x : List Char) :
    noOrphanEntity ('&' :: 'l' :: 't' :: ';' :: x) = noOrphanEntity x := rfl

/-- Scanner step: a complete `&gt;` is consumed whole. -/
theorem noOrphanEntity_gt (x : List Char) :
    noOrphanEntity ('&' :: 'g' :: 't' :: ';' :: x) = noOrphanEntity x := rfl

/-- Scanner step: a complete `&quot;` is consumed whole. -/
theorem noOrphanEntity_quot (x : List Char) :
    noOrphanEntity ('&' :: 'q' :: 'u' :: 'o' :: 't' :: ';' :: x) = noOrphanEntity x := rfl

/-- Scanner step: a complete `&#39;` is consumed whole. -/
theorem noOrphanEntity_apos (x : List Char) :
    noOrphanEntity ('&' :: '#' :: '3' :: '9' :: ';' :: x) = noOrphanEntity x := rfl

/-- Scanner step: a non-ampersand character is skipped. -/
theorem noOrphanEntity_other {c : Char} (h : c ≠ '&') (x : List Char) :
    noOrphanEntity (c :: x) = noOrphanEntity x := by
  simp [noOrphanEntity, h]

/-- The character-wise encoding never produces an orphaned entity. -/
theorem noOrphanEntity_flatMap (l : List Char) :
    noOrphanEntity (l.flatMap encodeChar) = true := by
  induction l with
  | nil => rfl
  | cons c rest ih =>
    rw [List.flatMap_cons]
    by_cases h1 : c = '&'
    · subst h1
      rw [show encodeChar '&' = "&amp;".data from rfl]
      rw [show ("&amp;".data ++ rest.flatMap encodeChar)
          = '&' :: 'a' :: 'm' :: 'p' :: ';' :: rest.flatMap encodeChar from rfl]
      rw [noOrphanEntity_amp]
      exact ih
    · by_cases h2 : c = '<'
      · subst h2
        rw [show encodeChar '<' = "&lt;".data from rfl]
        rw [show ("&lt;".data ++ rest.flatMap encodeChar)
            = '&' :: 'l' :: 't' :: ';' :: rest.flatMap encodeChar from rfl]
        rw [noOrphanEntity_lt]
        exact ih
      · by_cases h3 : c = '>'
        · subst h3
          rw [show encodeChar '>' = "&gt;".data from rfl]
          rw [show ("&gt;".data ++ rest.flatMap encodeChar)
              = '&' :: 'g' :: 't' :: ';' :: rest.flatMap encodeChar from rfl]
          rw [noOrphanEntity_gt]
          exact ih
        · by_cases h4 : c = '"'
          · subst h4
            rw [show encodeChar '"' = "&quot;".data from rfl]
            rw [show ("&quot;".data ++ rest.flatMap encodeChar)
                = '&' :: 'q' :: 'u' :: 'o' :: 't' :: ';' :: rest.flatMap encodeChar from rfl]
            rw [noOrphanEntity_quot]
            exact ih
          · by_cases h5 : c = '\''
            · subst h5
              rw [show encodeChar '\'' = "&#39;".data from rfl]
              rw [show ("&#39;".data ++ rest.flatMap encodeChar)
                  = '&' :: '#' :: '3' :: '9' :: ';' :: rest.flatMap encodeChar from rfl]
              rw [noOrphanEntity_apos]
              exact ih
            · rw [show encodeChar c = [c] by simp [encodeChar, h1, h2, h3, h4, h5]]
              rw [List.singleton_append, noOrphanEntity_other h1]
              exact ih

/-- Claim C9: a description no longer than the limit is returned
unchanged; a longer one is cut at the limit, trimmed and given an
ellipsis (`Hello world, this is long` at limit 10 becomes
`Hello worl...`); in the list renderer the description is escaped after
truncation and the title is escaped untruncated, and the escaped output
never contains an orphaned HTML entity. -/
theorem c9_description_truncation (text : String) (limit : Nat) (nowMs : Int)
    (config : RssDisplayConfig) (item : RssRenderItem) :
    (text.data.length ≤ limit → truncateRssText text limit = text) ∧
    (text ≠ "" → limit < text.data.length →
      truncateRssText text limit = jsTrim ⟨text.data.take limit⟩ ++ "...") ∧
    truncateRssText "Hello world, this is long" 10 = "Hello worl..." ∧
    noOrphanEntity (encodeHtml (truncateRssText text limit)).data = true ∧
    (config.showDescription = true → item.description ≠ "" →
      ∃ pre post, rssListItemHtml nowMs config item =
        pre ++ ("<div class=\"picanvas-rss-description\">" ++
          encodeHtml (truncateRssText item.description config.descriptionLimit) ++
          "</div>") ++ post) ∧
    (∃ pre post, rssListItemHtml nowMs config item =
      pre ++ encodeHtml item.title ++ post) := by
  refine ⟨?_, ?_, by decide, ?_, ?_, ?_⟩
  · intro h
    simp only [truncateRssText]
    split
    · rfl
    next hcond =>
      exact absurd (by simp only [Bool.or_eq_true, decide_eq_true_eq]; exact Or.inr h) hcond
  · intro hne h
    simp only [truncateRssText]
    split
    next hcond =>
      refine absurd hcond ?_
      simp only [Bool.or_eq_true, decide_eq_true_eq]
      rintro (hc | hc)
      · exact hne hc
      · exact Nat.not_le.mpr h hc
    · rfl
  · rw [encodeHtml_data]
    exact noOrphanEntity_flatMap _
  · intro h1 h2
    refine ⟨"\n        <article class=\"picanvas-rss-item\">\n          " ++
      rssListThumbnail config item ++
      "\n          <div class=\"picanvas-rss-content\">\n            <a href=\"" ++
      encodeHtml item.link ++ "\" target=\"" ++ config.linkTarget ++
      "\" rel=\"noopener noreferrer\" class=\"picanvas-rss-title\">\n              " ++
      encodeHtml item.title ++ "\n            </a>\n            " ++
      rssListMeta nowMs config item ++ "\n            ",
      "\n          </div>\n        </article>\n      ", ?_⟩
    simp [rssListItemHtml, rssListDescription, h1, h2, String.append_assoc]
  · refine ⟨"\n        <article class=\"picanvas-rss-item\">\n          " ++
      rssListThumbnail config item ++
      "\n          <div class=\"picanvas-rss-content\">\n            <a href=\"" ++
      encodeHtml item.link ++ "\" target=\"" ++ config.linkTarget ++
      "\" rel=\"noopener noreferrer\" class=\"picanvas-rss-title\">\n              ",
      "\n            </a>\n            " ++ rssListMeta nowMs config item ++
      "\n            " ++ rssListDescription config item ++
      "\n          </div>\n        </article>\n      ", ?_⟩
    simp [rssListItemHtml, String.append_assoc]

/-- Witness for C9: the over-limit branch at the spec's example input. -/
theorem c9_description_truncation_witness :
    truncateRssText "Hello world, this is long" 10 =
      jsTrim ⟨"Hello world, this is long".data.take 10⟩ ++ "..." :=
  (c9_description_truncation "Hello world, this is long" 10 0
    ⟨"list", true, true, true, true, 10, "relative", "_blank"⟩
    ⟨"t", "l", "d", ⟨true, 0, 1, 0, 1970⟩, "a", none⟩).2.1 (by decide) (by decide)

/-- Filtering out the satisfying elements leaves none satisfying. -/
theorem any_filter_not {α : Type} (p : α → Bool) (l : List α) :
    (l.filter fun x => !p x).any p = false := by
  induction l with
  | nil => rfl
  | cons x xs ih =>
    by_cases hx : p x = true
    · simp [List.filter_cons, hx, ih]
    · simp only [Bool.not_eq_true] at hx
      simp [List.filter_cons, hx, ih]

mutual
/-- A node kept by the Sanitizer Policy contains no script element and no
handler attribute at any depth, provided the profile forbids `script`. -/
theorem sanitizeNode_clean (forbidTags : List String)
    (hscript : forbidTags.contains "script" = true) :
    (n : HtmlNode) → ∀ n', sanitizeNode forbidTags n = some n' →
      nodeHasScriptOrHandler n' = false
  | HtmlNode.text s => by
    intro n' h
    simp only [sanitizeNode, Option.some.injEq] at h
    subst h
    rfl
  | HtmlNode.elem tag attrs children => by
    intro n' h
    by_cases htag : forbidTags.contains (toLowerJs tag) = true
    · have hnone : sanitizeNode forbidTags (HtmlNode.elem tag attrs children) = none := by
        simp only [sanitizeNode]
        rw [if_pos htag]
      rw [hnone] at h
      exact Option.noConfusion h
    · simp only [sanitizeNode, htag, Bool.false_eq_true, if_false,
        Option.some.injEq] at h
      subst h
      have h1 : (toLowerJs tag == "script") = false := by
        refine beq_eq_false_iff_ne.mpr fun he => htag ?_
        rw [he]
        exact hscript
      have h2 : ((attrs.filter fun kv => !isHandlerAttr kv.1).any
          fun kv => isHandlerAttr kv.1) = false :=
        any_filter_not _ attrs
      have h3 : forestHasScriptOrHandler (sanitizeForest forbidTags children) = false :=
        sanitizeForest_clean forbidTags hscript children
      simp [nodeHasScriptOrHandler, h1, h2, h3]
/-- The Sanitizer Policy output forest contains no script element and no
handler attribute at any depth, provided the profile forbids `script`. -/
theorem sanitizeForest_clean (forbidTags : List String)
    (hscript : forbidTags.contains "script" = true) :
    (f : HtmlForest) → forestHasScriptOrHandler (sanitizeForest forbidTags f) = false
  | HtmlForest.nil => rfl
  | HtmlForest.cons n rest => by
    cases hsn : sanitizeNode forbidTags n with
    | none =>
      simp only [sanitizeForest, hsn]
      exact sanitizeForest_clean forbidTags hscript rest
    | some n' =>
      simp only [sanitizeForest, hsn, forestHasScriptOrHandler]
      rw [sanitizeNode_clean forbidTags hscript n n' hsn,
        sanitizeForest_clean forbidTags hscript rest]
      rfl
end

/-- Claim C2: for every string input — equivalently, for every parsed
input tree, however deeply script elements or `on*` attributes are nested
in it — the sanitised markup produced by the `renderMarkdown` and
`renderHtml` pipelines contains no executable script element and no
inline event-handler attribute, in every branch including the error
fragments. -/
theorem c2_sanitized_no_script_no_handlers
    (parse : Except String HtmlForest) (rawTree : HtmlForest) (content : JsVal) :
    forestHasScriptOrHandler (renderMarkdownTree parse content) = false ∧
    forestHasScriptOrHandler (renderHtmlTree rawTree content) = false := by
  constructor
  · cases content with
    | nonString => rfl
    | str s =>
      by_cases hs : s = ""
      · subst hs; rfl
      · cases parse with
        | error e => simp [renderMarkdownTree, hs]; rfl
        | ok raw =>
          simp only [renderMarkdownTree, hs, if_false]
          exact sanitizeForest_clean markdownForbidTags (by decide) raw
  · cases content with
    | nonString => rfl
    | str s =>
      by_cases hs : s = ""
      · subst hs; rfl
      · simp only [renderHtmlTree, hs, if_false]
        exact sanitizeForest_clean htmlForbidTags (by decide) rawTree

/-! ## Properties of the CSS-safe identifier pipeline -/



/-- `noDoubleDash` passes to the tail. -/
theorem noDoubleDash_tail {c : Char} {t : List Char}
    (h : noDoubleDash (c :: t) = true) : noDoubleDash t = true := by
  cases t with
  | nil => rfl
  | cons d rest =>
    simp only [noDoubleDash, Bool.and_eq_true] at h
    exact h.2

/-- `noDoubleDash` restricts to a left factor of an append. -/
theorem noDoubleDash_append_left : ∀ {l₁ l₂ : List Char},
    noDoubleDash (l₁ ++ l₂) = true → noDoubleDash l₁ = true
  | [], _, _ => rfl
  | [_], _, _ => rfl
  | c :: d :: rest, l₂, h => by
    simp only [List.cons_append, noDoubleDash, Bool.and_eq_true] at h ⊢
    exact ⟨h.1, @noDoubleDash_append_left (d :: rest) l₂ (by simpa using h.2)⟩

/-- `noDoubleDash` restricts to a right factor of an append. -/
theorem noDoubleDash_append_right : ∀ (l₁ l₂ : List Char),
    noDoubleDash (l₁ ++ l₂) = true → noDoubleDash l₂ = true
  | [], _, h => h
  | c :: rest, l₂, h =>
    noDoubleDash_append_right rest l₂
      (@noDoubleDash_tail c (rest ++ l₂) (by simpa using h))

/-- Collapse step: a double hyphen drops the first. -/
theorem collapseDashes_cons₂_dash (rest : List Char) :
    collapseDashes ('-' :: '-' :: rest) = collapseDashes ('-' :: rest) := by
  simp [collapseDashes]

/-- Collapse step: any other pair keeps the head. -/
theorem collapseDashes_cons₂_ne {c d : Char} (h : ¬(c = '-' ∧ d = '-'))
    (rest : List Char) :
    collapseDashes (c :: d :: rest) = c :: collapseDashes (d :: rest) := by
  simp only [collapseDashes]
  rw [if_neg (by simp only [Bool.and_eq_true, decide_eq_true_eq]; exact h)]

/-- Collapsing preserves the head character. -/
theorem collapseDashes_head? : ∀ l : List Char, (collapseDashes l).head? = l.head?
  | [] => rfl
  | [c] => rfl
  | c :: d :: rest => by
    by_cases h : c = '-' ∧ d = '-'
    · obtain ⟨hc, hd⟩ := h
      subst hc
      subst hd
      rw [collapseDashes_cons₂_dash, collapseDashes_head? ('-' :: rest)]
      rfl
    · rw [collapseDashes_cons₂_ne h]
      rfl

/-- Collapsing preserves an `all` predicate. -/
theorem collapseDashes_all (p : Char → Bool) : ∀ l : List Char,
    l.all p = true → (collapseDashes l).all p = true
  | [], h => h
  | [c], h => h
  | c :: d :: rest, h => by
    simp only [List.all_cons, Bool.and_eq_true] at h
    by_cases hcd : c = '-' ∧ d = '-'
    · obtain ⟨hc, hd⟩ := hcd
      subst hc
      subst hd
      rw [collapseDashes_cons₂_dash]
      exact collapseDashes_all p ('-' :: rest) (by simp [h.1, h.2.2])
    · rw [collapseDashes_cons₂_ne hcd]
      simp only [List.all_cons, Bool.and_eq_true]
      exact ⟨h.1, collapseDashes_all p (d :: rest) (by simp [h.2.1, h.2.2])⟩

/-- Collapsing leaves no adjacent hyphens. -/
theorem collapseDashes_noDoubleDash : ∀ l : List Char,
    noDoubleDash (collapseDashes l) = true
  | [] => rfl
  | [_] => rfl
  | c :: d :: rest => by
    by_cases hcd : c = '-' ∧ d = '-'
    · obtain ⟨hc, hd⟩ := hcd
      subst hc
      subst hd
      rw [collapseDashes_cons₂_dash]
      exact collapseDashes_noDoubleDash ('-' :: rest)
    · rw [collapseDashes_cons₂_ne hcd]
      cases hX : collapseDashes (d :: rest) with
      | nil => rfl
      | cons x xs =>
        have hx : x = d := by
          have h := collapseDashes_head? (d :: rest)
          rw [hX] at h
          simpa using h
        have hrec := collapseDashes_noDoubleDash (d :: rest)
        rw [hX] at hrec
        subst hx
        simp only [noDoubleDash, Bool.and_eq_true, Bool.not_eq_true',
          Bool.and_eq_false_iff]
        refine ⟨?_, hrec⟩
        by_cases hc : c = '-'
        · right
          subst hc
          simp only [decide_eq_false_iff_not]
          exact fun hd => hcd ⟨rfl, hd⟩
        · left
          simp only [decide_eq_false_iff_not]
          exact hc

/-- A list without adjacent hyphens collapses to itself. -/
theorem collapseDashes_id : ∀ {l : List Char},
    noDoubleDash l = true → collapseDashes l = l
  | [], _ => rfl
  | [_], _ => rfl
  | c :: d :: rest, h => by
    simp only [noDoubleDash, Bool.and_eq_true, Bool.not_eq_true',
      Bool.and_eq_false_iff, decide_eq_false_iff_not] at h
    have hne : ¬(c = '-' ∧ d = '-') := by
      rcases h.1 with hc | hd
      · exact fun hp => hc hp.1
      · exact fun hp => hd hp.2
    rw [collapseDashes_cons₂_ne hne, collapseDashes_id h.2]

/-- The trailing-dash dropper yields a prefix of its input. -/
theorem dropTrailingDashes_front : ∀ l : List Char, dropTrailingDashes l <+: l
  | [] => ⟨[], rfl⟩
  | c :: rest => by
    cases h : dropTrailingDashes rest with
    | nil =>
      simp only [dropTrailingDashes, h]
      by_cases hc : c = '-'
      · simp only [hc, if_pos rfl]
        exact ⟨'-' :: rest, rfl⟩
      · simp only [if_neg hc]
        exact ⟨rest, rfl⟩
    | cons r rs =>
      simp only [dropTrailingDashes, h]
      obtain ⟨t, ht⟩ := dropTrailingDashes_front rest
      rw [h] at ht
      exact ⟨t, by rw [List.cons_append, ht]⟩

/-- The trailing-dash dropper never ends in a hyphen. -/
theorem dropTrailingDashes_getLast? : ∀ l : List Char,
    (dropTrailingDashes l).getLast? ≠ some '-'
  | [] => by simp [dropTrailingDashes]
  | c :: rest => by
    cases h : dropTrailingDashes rest with
    | nil =>
      simp only [dropTrailingDashes, h]
      by_cases hc : c = '-'
      · simp [hc]
      · simp only [if_neg hc, List.getLast?_singleton, ne_eq, Option.some.injEq]
        exact hc
    | cons r rs =>
      simp only [dropTrailingDashes, h]
      rw [List.getLast?_cons_cons]
      have hrec := dropTrailingDashes_getLast? rest
      rw [h] at hrec
      exact hrec

/-- A list not ending in a hyphen keeps its trailing part. -/
theorem dropTrailingDashes_id : ∀ {l : List Char},
    l.getLast? ≠ some '-' → dropTrailingDashes l = l
  | [], _ => rfl
  | [c], h => by
    have hc : c ≠ '-' := by simpa [List.getLast?_singleton] using h
    simp [dropTrailingDashes, hc]
  | c :: d :: rest, h => by
    rw [List.getLast?_cons_cons] at h
    have hrec := @dropTrailingDashes_id (d :: rest) h
    have hne : dropTrailingDashes (d :: rest) ≠ [] := by
      rw [hrec]
      simp
    cases hx : dropTrailingDashes (d :: rest) with
    | nil => exact absurd hx hne
    | cons r rs =>
      have hstep : dropTrailingDashes (c :: d :: rest) = c :: (r :: rs) := by
        simp only [dropTrailingDashes]
        rw [show (match dropTrailingDashes rest with
            | [] => if d = '-' then [] else [d]
            | r => d :: r) = dropTrailingDashes (d :: rest) from rfl, hx]
      rw [hstep, ← hx, hrec]

/-- An `all` predicate restricts to prefixes. -/
theorem all_of_front (p : Char → Bool) {l₁ l₂ : List Char} (h : l₁ <+: l₂)
    (ha : l₂.all p = true) : l₁.all p = true := by
  obtain ⟨t, rfl⟩ := h
  simp only [List.all_append, Bool.and_eq_true] at ha
  exact ha.1

/-- An `all` predicate restricts to suffixes. -/
theorem all_of_suffix (p : Char → Bool) {l₁ l₂ : List Char} (h : l₁ <:+ l₂)
    (ha : l₂.all p = true) : l₁.all p = true := by
  obtain ⟨t, rfl⟩ := h
  simp only [List.all_append, Bool.and_eq_true] at ha
  exact ha.2

/-- `noDoubleDash` restricts to prefixes. -/
theorem noDoubleDash_of_front {l₁ l₂ : List Char} (h : l₁ <+: l₂)
    (hd : noDoubleDash l₂ = true) : noDoubleDash l₁ = true := by
  obtain ⟨t, rfl⟩ := h
  exact noDoubleDash_append_left hd

/-- `noDoubleDash` restricts to suffixes. -/
theorem noDoubleDash_of_suffix {l₁ l₂ : List Char} (h : l₁ <:+ l₂)
    (hd : noDoubleDash l₂ = true) : noDoubleDash l₁ = true := by
  obtain ⟨t, rfl⟩ := h
  exact noDoubleDash_append_right t l₁ hd

/-- A nonempty prefix starts with the head of the longer list. -/
theorem head?_of_front {l₁ l₂ : List Char} (h : l₁ <+: l₂) (hne : l₁ ≠ []) :
    l₁.head? = l₂.head? := by
  obtain ⟨t, rfl⟩ := h
  cases l₁ with
  | nil => exact absurd rfl hne
  | cons x xs => rfl

/-- The leading-dash dropper starts with a non-hyphen (or is empty). -/
theorem head?_dropWhile_dash (l : List Char) :
    (l.dropWhile fun c => c = '-').head? ≠ some '-' := by
  have h := List.head?_dropWhile_not (fun c : Char => c = '-') l
  cases hh : (l.dropWhile fun c => c = '-').head? with
  | none => simp
  | some x =>
    rw [hh] at h
    simp only [decide_eq_false_iff_not] at h
    simpa using h


/-- Every character the first replace emits is in `[a-zA-Z0-9_-]`. -/
theorem replaceSpecials_all (l : List Char) :
    (replaceSpecials l).all allowedIdChar = true := by
  induction l with
  | nil => rfl
  | cons c rest ih =>
    simp only [replaceSpecials, List.map_cons, List.all_cons, Bool.and_eq_true] at ih ⊢
    refine ⟨?_, ih⟩
    by_cases hc : allowedIdChar c = true
    · rw [if_pos hc]
      exact hc
    · simp only [Bool.not_eq_true] at hc
      rw [if_neg (by simp [hc])]
      decide

/-- The first replace fixes strings made of allowed characters. -/
theorem replaceSpecials_id {l : List Char} (h : l.all allowedIdChar = true) :
    replaceSpecials l = l := by
  induction l with
  | nil => rfl
  | cons c rest ih =>
    simp only [List.all_cons, Bool.and_eq_true] at h
    simp only [replaceSpecials, List.map_cons]
    rw [if_pos h.1]
    have := ih h.2
    simp only [replaceSpecials] at this
    rw [this]

/-- The digit-prefix step preserves allowed characters. -/
theorem prefixIfDigit_all {l : List Char} (h : l.all allowedIdChar = true) :
    (prefixIfDigit l).all allowedIdChar = true := by
  cases l with
  | nil => rfl
  | cons c rest =>
    simp only [prefixIfDigit]
    by_cases hc : c.isDigit = true
    · rw [if_pos hc]
      simp only [List.all_cons, Bool.and_eq_true] at h ⊢
      exact ⟨by decide, by decide, h.1, h.2⟩
    · rw [if_neg (by simp [hc])]
      exact h

/-- The digit-prefix step fixes strings not starting with a digit. -/
theorem prefixIfDigit_id {l : List Char}
    (h : ∀ c, l.head? = some c → c.isDigit = false) : prefixIfDigit l = l := by
  cases l with
  | nil => rfl
  | cons c rest =>
    simp only [prefixIfDigit]
    rw [if_neg]
    rw [h c rfl]
    simp

/-- The sanitised identifier consists of allowed characters only. -/
theorem sanitizedId_all (str : String) :
    (sanitizedId str).all allowedIdChar = true := by
  unfold sanitizedId stripEdgeDashes
  refine all_of_front _ (dropTrailingDashes_front _) ?_
  refine all_of_suffix _ (List.dropWhile_suffix _) ?_
  exact collapseDashes_all _ _ (prefixIfDigit_all (replaceSpecials_all _))

/-- The sanitised identifier has no adjacent hyphens. -/
theorem sanitizedId_noDoubleDash (str : String) :
    noDoubleDash (sanitizedId str) = true := by
  unfold sanitizedId stripEdgeDashes
  refine noDoubleDash_of_front (dropTrailingDashes_front _) ?_
  refine noDoubleDash_of_suffix (List.dropWhile_suffix _) ?_
  exact collapseDashes_noDoubleDash _

/-- The sanitised identifier does not start with a hyphen. -/
theorem sanitizedId_head? (str : String) :
    (sanitizedId str).head? ≠ some '-' := by
  unfold sanitizedId stripEdgeDashes
  by_cases hne : dropTrailingDashes
      ((collapseDashes (prefixIfDigit (replaceSpecials str.data))).dropWhile
        fun c => c = '-') = []
  · rw [hne]
    simp
  · rw [head?_of_front (dropTrailingDashes_front _) hne]
    exact head?_dropWhile_dash _

/-- The sanitised identifier does not end with a hyphen. -/
theorem sanitizedId_getLast? (str : String) :
    (sanitizedId str).getLast? ≠ some '-' := by
  unfold sanitizedId stripEdgeDashes
  exact dropTrailingDashes_getLast? _

/-- A string that is already a clean identifier not starting with a digit
is a fixpoint of `makeCssSafeId`. -/
theorem makeCssSafeId_fixpoint (now : Nat) (o : String)
    (hne : o.data ≠ [])
    (hall : o.data.all allowedIdChar = true)
    (hdd : noDoubleDash o.data = true)
    (hhead : o.data.head? ≠ some '-')
    (hlast : o.data.getLast? ≠ some '-')
    (hdigit : ∀ c, o.data.head? = some c → c.isDigit = false) :
    makeCssSafeId now o = o := by
  have hone : o ≠ "" := by
    intro he
    apply hne
    rw [he]
  have h1 : replaceSpecials o.data = o.data := replaceSpecials_id hall
  have h2 : prefixIfDigit o.data = o.data := prefixIfDigit_id hdigit
  have h3 : collapseDashes o.data = o.data := collapseDashes_id hdd
  have h4 : (o.data.dropWhile fun c => c = '-') = o.data := by
    cases hcase : o.data with
    | nil => rfl
    | cons x xs =>
      rw [List.dropWhile_cons]
      have hx : x ≠ '-' := by
        intro he
        apply hhead
        rw [hcase, he]
        rfl
      rw [if_neg (by simp [hx])]
  have h5 : dropTrailingDashes o.data = o.data := dropTrailingDashes_id hlast
  simp only [makeCssSafeId, sanitizedId, stripEdgeDashes]
  rw [if_neg hone, h1, h2, h3, h4, h5, if_neg hne]

/-- Counterexample to Claim C4 as stated: for input `=5` the generated
identifier is `5`, which begins with a digit (failing the claimed
pattern `^[A-Za-z_-][A-Za-z0-9_-]*$`), and applying the function to its
own output gives `m-5`, so the function is not idempotent. -/
theorem c4_counterexample :
    makeCssSafeId 0 "=5" = "5" ∧
    matchesClaimIdPattern (makeCssSafeId 0 "=5") = false ∧
    makeCssSafeId 0 (makeCssSafeId 0 "=5") = "m-5" ∧
    makeCssSafeId 0 (makeCssSafeId 0 "=5") ≠ makeCssSafeId 0 "=5" := by decide

/-- Claim C4, amended: the generated identifier (when the sanitised form
is nonempty, so the timestamp fallback is not taken) consists only of
`[A-Za-z0-9_-]`, has no consecutive, leading or trailing dashes, and the
function is idempotent on every output that does not begin with a digit;
the output can begin with a digit when the replaced input begins with a
dash followed by a digit, because the digit-prefix step runs before dash
collapsing and stripping.  The spec's example input `id=5/weird char`
yields `id-5-weird-char`, which does match the claimed pattern. -/
theorem c4_css_safe_id_amended (now now2 : Nat) (str o : String) :
    (sanitizedId str).all allowedIdChar = true ∧
    noDoubleDash (sanitizedId str) = true ∧
    (sanitizedId str).head? ≠ some '-' ∧
    (sanitizedId str).getLast? ≠ some '-' ∧
    (str ≠ "" → sanitizedId str ≠ [] → makeCssSafeId now str = ⟨sanitizedId str⟩) ∧
    (o.data ≠ [] → o.data.all allowedIdChar = true → noDoubleDash o.data = true →
      o.data.head? ≠ some '-' → o.data.getLast? ≠ some '-' →
      (∀ c, o.data.head? = some c → c.isDigit = false) →
      makeCssSafeId now2 o = o) ∧
    makeCssSafeId now "id=5/weird char" = "id-5-weird-char" ∧
    matchesClaimIdPattern (makeCssSafeId now "id=5/weird char") = true := by
  refine ⟨sanitizedId_all str, sanitizedId_noDoubleDash str, sanitizedId_head? str,
    sanitizedId_getLast? str, ?_, ?_, rfl, rfl⟩
  · intro h1 h2
    simp only [makeCssSafeId, sanitizedId] at h2 ⊢
    rw [if_neg h1, if_neg h2]
  · intro hne hall hdd hhead hlast hdigit
    exact makeCssSafeId_fixpoint now2 o hne hall hdd hhead hlast hdigit

/-- Witness for C4's amended idempotence conjunct at a concrete clean
identifier. -/
theorem c4_css_safe_id_amended_witness :
    makeCssSafeId 3 "abc" = "abc" :=
  (c4_css_safe_id_amended 3 3 "abc" "abc").2.2.2.2.2.1 (by decide) (by decide)
    (by decide) (by decide) (by decide)
    (fun c hc => by
      rw [show "abc".data.head? = some 'a' from rfl] at hc
      cases hc
      decide)

/-- `takeWhile` keeps a list all of whose elements satisfy the predicate. -/
theorem takeWhile_eq_self_of_all {l : List Char} {p : Char → Bool}
    (h : l.all p = true) : l.takeWhile p = l := by
  induction l with
  | nil => rfl
  | cons c rest ih =>
    simp only [List.all_cons, Bool.and_eq_true] at h
    rw [List.takeWhile_cons, if_pos h.1, ih h.2]

/-- Counterexample to Claim C10 as stated: the claim says `px` is appended
to bare integers, but `sanitizeCssValue "400"` returns `"400"` unchanged
(the bare number already matches the unit-optional safe pattern, so the
px-appending branch is unreachable); and the empty height yields `""`,
not the claimed `'400px'`. -/
theorem c10_counterexample :
    sanitizeCssValue "400" = "400" ∧ sanitizeCssValue "400" ≠ "400px" ∧
    sanitizeCssValue "" = "" ∧ sanitizeCssValue "" ≠ "400px" := by decide

/-- Claim C10, amended: the interpolated height is the trimmed configured
value when that matches the safe pattern (a digits-and-dots run with an
optional unit, bare integers staying unchanged since the px branch is
dead), the empty string when the configured height is empty, and exactly
`'400px'` otherwise; the embed container style carries exactly
`sanitizeCssValue` of the configured height. -/
theorem c10_css_height_amended (value : String) (parsed : Option UrlParts)
    (config : EmbedConfig) :
    (value = "" → sanitizeCssValue value = "") ∧
    (value ≠ "" → matchesSafeCss (jsTrim value) = true →
      sanitizeCssValue value = jsTrim value) ∧
    (value ≠ "" → matchesSafeCss (jsTrim value) = false →
      sanitizeCssValue value = "400px") ∧
    (allDigits (jsTrim value) = true → matchesSafeCss (jsTrim value) = true) ∧
    (config.url ≠ "" →
      sanitizeEmbedUrl parsed config.url config.additionalDomains ≠ "" →
      ∃ pre post, (renderEmbed parsed config).html =
        pre ++ ("style=\"height: " ++
          sanitizeCssValue (config.height.getD "400px") ++ "\"") ++ post) := by
  refine ⟨?_, ?_, ?_, ?_, ?_⟩
  · intro h
    simp [sanitizeCssValue, h]
  · intro hne hm
    simp only [sanitizeCssValue]
    rw [if_neg hne, if_pos hm]
  · intro hne hm
    simp only [sanitizeCssValue]
    rw [if_neg hne, if_neg (by simp [hm])]
    have hd : allDigits (jsTrim value) = false := by
      cases hcase : allDigits (jsTrim value) with
      | false => rfl
      | true =>
        exfalso
        have hall : (jsTrim value).data.all Char.isDigit = true := by
          simp only [allDigits, Bool.and_eq_true] at hcase
          exact hcase.2
        have hlen : (jsTrim value).data.length > 0 := by
          simp only [allDigits, Bool.and_eq_true, decide_eq_true_eq] at hcase
          exact hcase.1
        have hdot : (jsTrim value).data.all isDigitOrDot = true := by
          simp only [List.all_eq_true] at hall ⊢
          intro x hx
          simp [isDigitOrDot, hall x hx]
        have htw : (jsTrim value).data.takeWhile isDigitOrDot = (jsTrim value).data :=
          takeWhile_eq_self_of_all hdot
        have : matchesSafeCss (jsTrim value) = true := by
          simp only [matchesSafeCss, htw, List.drop_length]
          simp [toLowerJs, safeCssUnits]
          exact hlen
        rw [this] at hm
        exact Bool.true_eq_false.mp hm
    rw [if_neg (by simp [hd])]
  · intro hcase
    have hall : (jsTrim value).data.all Char.isDigit = true := by
      simp only [allDigits, Bool.and_eq_true] at hcase
      exact hcase.2
    have hlen : (jsTrim value).data.length > 0 := by
      simp only [allDigits, Bool.and_eq_true, decide_eq_true_eq] at hcase
      exact hcase.1
    have hdot : (jsTrim value).data.all isDigitOrDot = true := by
      simp only [List.all_eq_true] at hall ⊢
      intro x hx
      simp [isDigitOrDot, hall x hx]
    have htw : (jsTrim value).data.takeWhile isDigitOrDot = (jsTrim value).data :=
      takeWhile_eq_self_of_all hdot
    simp only [matchesSafeCss, htw, List.drop_length]
    simp [toLowerJs, safeCssUnits]
    exact hlen
  · intro hurl hsan
    have hr : (renderEmbed parsed config).html =
        embedFrameHtml (sanitizeCssValue (config.height.getD "400px"))
          (if config.defer then
            "data-src=\"" ++
              encodeHtml (sanitizeEmbedUrl parsed config.url config.additionalDomains) ++ "\""
          else
            "src=\"" ++
              encodeHtml (sanitizeEmbedUrl parsed config.url config.additionalDomains) ++ "\"") := by
      simp only [renderEmbed]
      rw [if_neg hurl, if_neg hsan]
    refine ⟨"\n      <div class=\"picanvas-embed-container\" ",
      ">\n        <iframe\n          " ++
        (if config.defer then
          "data-src=\"" ++
            encodeHtml (sanitizeEmbedUrl parsed config.url config.additionalDomains) ++ "\""
        else
          "src=\"" ++
            encodeHtml (sanitizeEmbedUrl parsed config.url config.additionalDomains) ++ "\"") ++
        embedFrameTail, ?_⟩
    rw [hr]
    simp only [embedFrameHtml]
    rw [show embedContainerPre =
      "\n      <div class=\"picanvas-embed-container\" " ++ "style=\"height: " from rfl]
    rw [show embedFrameMid = "\"" ++ ">\n        <iframe\n          " from rfl]
    simp only [String.append_assoc]

/-- Witness for C10's amended injection conjunct: an attempted style
injection collapses to the safe default. -/
theorem c10_css_height_amended_witness :
    sanitizeCssValue "400px; background:url(https://evil)" = "400px" :=
  (c10_css_height_amended "400px; background:url(https://evil)" none
    ⟨"", none, [], false⟩).2.2.1 (by decide) (by decide)

/-- `containsSub` decides the infix relation. -/
theorem containsSub_spec (pat : List Char) : ∀ l : List Char,
    containsSub pat l = true ↔ pat <:+: l
  | [] => by
    simp only [containsSub, List.isEmpty_iff]
    constructor
    · rintro rfl
      exact List.infix_refl []
    · intro h
      exact List.eq_nil_of_infix_nil h
  | c :: rest => by
    simp only [containsSub, Bool.or_eq_true, List.isPrefixOf_iff_prefix,
      containsSub_spec pat rest]
    exact Iff.symm List.infix_cons_iff

/-- A string containing an infix pattern passes `strContains`. -/
theorem strContains_of_occurs {s pat : String} (h : pat.data <:+: s.data) :
    strContains s pat = true :=
  (containsSub_spec pat.data s.data).mpr h



/-- `sanitizeEmbedUrl` characterised through the normalized allow
predicate. -/
theorem sanitizeEmbedUrl_eq (parsed : Option UrlParts) (url : String)
    (additionalDomains : List String) :
    sanitizeEmbedUrl parsed url additionalDomains =
      (match parsed with
       | none => ""
       | some p =>
         if p.protocol ≠ "https:" then ""
         else if specAllowedNormalized p.hostname additionalDomains then url
         else "") := by
  cases parsed with
  | none => rfl
  | some p => rfl

/-- The iframe template always contains a frame element. -/
theorem hasFrame_embedFrameHtml (css attr : String) :
    hasFrame (embedFrameHtml css attr) = true := by
  apply strContains_of_occurs
  have h1 : "<iframe".data <:+: embedFrameMid.data := by decide
  have h2 : embedFrameMid.data <:+: (embedFrameHtml css attr).data :=
    ⟨embedContainerPre.data ++ css.data, attr.data ++ embedFrameTail.data, by
      simp [embedFrameHtml, List.append_assoc]⟩
  exact h1.trans h2

/-- Counterexample to Claim C1 as stated: with the caller allow-list entry
`www.example.com`, the URL `https://example.com/` is rendered as a live
iframe, although the hostname `example.com` neither equals any
allow-listed entry nor is a proper subdomain of one — the source strips a
leading `www.` from the entries before matching. -/
theorem c1_counterexample :
    hasFrame (renderEmbed (some ⟨"https:", "example.com"⟩)
      ⟨"https://example.com/", none, ["www.example.com"], false⟩).html = true ∧
    specAllowedLiteral "example.com" ["www.example.com"] = false := by
  constructor
  · decide
  · decide

/-- Claim C1, amended: `renderEmbed` emits a frame element exactly when
the URL is nonempty and parses, the protocol is `https:`, and the
hostname matches the merged allow list under the source's normalization
(one leading `www.` stripped and case folded on both sides); every
rejected configuration yields the visible no-URL error notice or the
blocked notice, and neither notice contains a frame element. -/
theorem c1_embed_allowlist_amended (parsed : Option UrlParts) (config : EmbedConfig) :
    (hasFrame (renderEmbed parsed config).html =
      (config.url != "" &&
        (match parsed with
         | some p => (p.protocol == "https:") &&
             specAllowedNormalized p.hostname config.additionalDomains
         | none => false))) ∧
    ((renderEmbed parsed config).html = embedNoUrlHtml ∨
     (renderEmbed parsed config).html = embedBlockedHtml ∨
     hasFrame (renderEmbed parsed config).html = true) := by
  have hblocked : hasFrame embedBlockedHtml = false := by
    set_option maxRecDepth 8192 in decide
  have hnourl : hasFrame embedNoUrlHtml = false := by
    set_option maxRecDepth 8192 in decide
  by_cases hurl : config.url = ""
  · have hh : (renderEmbed parsed config).html = embedNoUrlHtml := by
      simp [renderEmbed, hurl]
    refine ⟨?_, Or.inl hh⟩
    rw [hh, hnourl, hurl]
    simp
  · have hb : (config.url != "") = true := by simp [hurl]
    cases parsed with
    | none =>
      have hh : (renderEmbed none config).html = embedBlockedHtml := by
        simp only [renderEmbed]
        rw [if_neg hurl]
        rw [show sanitizeEmbedUrl none config.url config.additionalDomains = "" from rfl]
        simp
      refine ⟨?_, Or.inr (Or.inl hh)⟩
      rw [hh, hblocked]
      simp
    | some p =>
      by_cases hp : p.protocol = "https:"
      · by_cases ha : specAllowedNormalized p.hostname config.additionalDomains = true
        · have hsan : sanitizeEmbedUrl (some p) config.url config.additionalDomains
              = config.url := by
            rw [sanitizeEmbedUrl_eq]
            simp [hp, ha]
          have hframe : hasFrame (renderEmbed (some p) config).html = true := by
            simp only [renderEmbed]
            rw [hsan, if_neg hurl, if_neg hurl]
            exact hasFrame_embedFrameHtml _ _
          refine ⟨?_, Or.inr (Or.inr hframe)⟩
          rw [hframe, hb]
          simp [hp, ha]
        · have hsan : sanitizeEmbedUrl (some p) config.url config.additionalDomains
              = "" := by
            rw [sanitizeEmbedUrl_eq]
            simp only [Bool.not_eq_true] at ha
            simp [hp, ha]
          have hh : (renderEmbed (some p) config).html = embedBlockedHtml := by
            simp only [renderEmbed]
            rw [hsan, if_neg hurl]
            simp
          refine ⟨?_, Or.inr (Or.inl hh)⟩
          rw [hh, hblocked]
          simp only [Bool.not_eq_true] at ha
          simp [ha]
      · have hsan : sanitizeEmbedUrl (some p) config.url config.additionalDomains
            = "" := by
          rw [sanitizeEmbedUrl_eq]
          simp [hp]
        have hh : (renderEmbed (some p) config).html = embedBlockedHtml := by
          simp only [renderEmbed]
          rw [hsan, if_neg hurl]
          simp
        refine ⟨?_, Or.inr (Or.inl hh)⟩
        rw [hh, hblocked]
        simp [hp]

/-- `updateAt` preserves length. -/
theorem updateAt_length (f : α → α) : ∀ (i : Nat) (l : List α),
    (updateAt i f l).length = l.length
  | _, [] => by simp [updateAt]
  | 0, _ :: _ => by simp [updateAt]
  | i + 1, x :: xs => by
    simp only [updateAt, List.length_cons]
    rw [updateAt_length f i xs]

/-- Pointwise description of `updateAt`. -/
theorem updateAt_get? (f : α → α) : ∀ (i : Nat) (l : List α) (j : Nat),
    (updateAt i f l).get? j = if j = i then (l.get? j).map f else l.get? j
  | i, [], j => by simp [updateAt]
  | 0, x :: xs, 0 => by simp [updateAt]
  | 0, x :: xs, j + 1 => by simp [updateAt]
  | i + 1, x :: xs, 0 => by simp [updateAt]
  | i + 1, x :: xs, j + 1 => by
    simp only [updateAt, List.get?_cons_succ]
    rw [updateAt_get? f i xs j]
    by_cases h : j = i
    · simp [h]
    · simp [h, fun hc => h (Nat.succ_injective hc)]

/-- Pointwise description of `mapWithIdx`. -/
theorem mapWithIdx_get? (f : Nat → α → β) : ∀ (l : List α) (i j : Nat),
    (mapWithIdx f i l).get? j = (l.get? j).map (f (i + j))
  | [], i, j => by simp [mapWithIdx]
  | x :: xs, i, 0 => by simp [mapWithIdx]
  | x :: xs, i, j + 1 => by
    simp only [mapWithIdx, List.get?_cons_succ]
    rw [mapWithIdx_get? f xs (i + 1) j]
    have harith : i + 1 + j = i + (j + 1) := by omega
    rw [harith]

/-- `mapWithIdx` preserves length. -/
theorem mapWithIdx_length (f : Nat → α → β) : ∀ (l : List α) (i : Nat),
    (mapWithIdx f i l).length = l.length
  | [], _ => rfl
  | x :: xs, i => by
    simp only [mapWithIdx, List.length_cons]
    rw [mapWithIdx_length f xs (i + 1)]

/-- The initial-index loop stays below any bound covering the list. -/
theorem lastActiveIdxGo_lt : ∀ (flags : List Bool) (cur idx n : Nat),
    cur < n → idx + flags.length ≤ n → lastActiveIdxGo cur idx flags < n
  | [], cur, idx, n, hc, _ => hc
  | b :: rest, cur, idx, n, hc, hn => by
    simp only [lastActiveIdxGo]
    refine lastActiveIdxGo_lt rest _ (idx + 1) n ?_ ?_
    · cases b
      · simpa using hc
      · simp only [List.length_cons] at hn
        have hidx : idx < n := by omega
        simpa using hidx
    · simp only [List.length_cons] at hn
      omega

/-- The initial active index is in range for nonempty panel lists. -/
theorem lastActiveIdx_lt {flags : List Bool} (h : flags ≠ []) :
    lastActiveIdx flags < flags.length :=
  lastActiveIdxGo_lt flags 0 0 flags.length (List.length_pos.mpr h) (by omega)

/-- Destructured form of the ARIA invariant. -/
theorem canonicalState_spec {s : TabsState} (h : canonicalState s = true) :
    s.activeIdx < s.tabs.length ∧ s.tabs.length = s.panels.length ∧
    ∀ j, j < s.tabs.length → ∃ t p, s.tabs.get? j = some t ∧ s.panels.get? j = some p ∧
      t.ariaSelected = (j == s.activeIdx) ∧ t.tabindexZero = (j == s.activeIdx) ∧
      t.activeClass = (j == s.activeIdx) ∧ p.activeClass = (j == s.activeIdx) ∧
      p.ariaHidden = (j != s.activeIdx) := by
  simp only [canonicalState, Bool.and_eq_true, decide_eq_true_eq, beq_iff_eq,
    List.all_eq_true] at h
  obtain ⟨⟨h1, h2⟩, h3⟩ := h
  refine ⟨h1, h2, ?_⟩
  intro j hj
  have hx := h3 j (List.mem_range.mpr hj)
  cases ht : s.tabs.get? j with
  | none => rw [ht] at hx; simp at hx
  | some t =>
    cases hp : s.panels.get? j with
    | none => rw [ht, hp] at hx; simp at hx
    | some p =>
      rw [ht, hp] at hx
      simp only [Bool.and_eq_true, beq_iff_eq] at hx
      exact ⟨t, p, rfl, rfl, hx.1.1.1, hx.1.1.2, hx.1.2, hx.2.1, hx.2.2⟩

/-- Sufficient pointwise conditions for the ARIA invariant. -/
theorem canonical_of_pointwise (tabs : List TabAttrs) (panels : List PanelAttrs)
    (u : Nat) (hu : u < tabs.length) (hl : tabs.length = panels.length)
    (ht : ∀ j, j < tabs.length → ∃ t, tabs.get? j = some t ∧
      t.ariaSelected = (j == u) ∧ t.tabindexZero = (j == u) ∧ t.activeClass = (j == u))
    (hp : ∀ j, j < panels.length → ∃ p, panels.get? j = some p ∧
      p.activeClass = (j == u) ∧ p.ariaHidden = (j != u)) :
    canonicalState ⟨tabs, panels, u⟩ = true := by
  simp only [canonicalState, Bool.and_eq_true, decide_eq_true_eq, beq_iff_eq,
    List.all_eq_true]
  refine ⟨⟨hu, hl⟩, ?_⟩
  intro j hj
  have hjlt : j < tabs.length := List.mem_range.mp hj
  obtain ⟨t, hts, h1, h2, h3⟩ := ht j hjlt
  obtain ⟨p, hps, h4, h5⟩ := hp j (by omega)
  rw [hts, hps]
  simp [h1, h2, h3, h4, h5]

/-- After a completed (non-placeholder, in-range) activation the ARIA
invariant holds, regardless of the previous attribute state. -/
theorem activateTab_canonical {s : TabsState} {i : Nat}
    (hlen : s.tabs.length = s.panels.length) (hi : i < s.tabs.length)
    (hph : placeholderAt s i = false) :
    canonicalState (activateTab s i).1 = true := by
  have hip : i < s.panels.length := by omega
  simp only [activateTab]
  rw [if_neg (by simp [hph])]
  apply canonical_of_pointwise
  · rw [updateAt_length, List.length_map]
    exact hi
  · rw [updateAt_length, List.length_map]
    split
    · rw [updateAt_length, updateAt_length, List.length_map]
      exact hlen
    · rw [updateAt_length, List.length_map]
      exact hlen
  · intro j hj
    have hjlt : j < s.tabs.length := by
      rw [updateAt_length, List.length_map] at hj
      exact hj
    obtain ⟨t, htj⟩ : ∃ t, s.tabs.get? j = some t := ⟨_, List.get?_eq_get hjlt⟩
    rw [updateAt_get?, List.get?_map, htj]
    by_cases hji : j = i
    · subst hji
      simp
    · have hb : (j == i) = false := beq_eq_false_iff_ne.mpr hji
      simp [hji, hb]
  · intro j hj
    have hjlt : j < s.panels.length := by
      revert hj
      split
      · rw [updateAt_length, updateAt_length, List.length_map]
        exact id
      · rw [updateAt_length, List.length_map]
        exact id
    obtain ⟨p, hpj⟩ : ∃ p, s.panels.get? j = some p := ⟨_, List.get?_eq_get hjlt⟩
    split
    · rw [updateAt_get?, updateAt_get?, List.get?_map, hpj]
      by_cases hji : j = i
      · subst hji
        simp
      · have hb : (j == i) = false := beq_eq_false_iff_ne.mpr hji
        simp [hji, hb]
    · rw [updateAt_get?, List.get?_map, hpj]
      by_cases hji : j = i
      · subst hji
        simp
      · have hb : (j == i) = false := beq_eq_false_iff_ne.mpr hji
        simp [hji, hb]

/-- Re-activating the already-active index of a canonical state with its
lazy content loaded leaves the state unchanged and emits exactly one
tab-change event. -/
theorem activateTab_self_eq {s : TabsState}
    (hc : canonicalState s = true) (hld : panelLoadedAt s s.activeIdx = true)
    (hph : placeholderAt s s.activeIdx = false) :
    activateTab s s.activeIdx = (s, true, [TabEvent.tabChange s.activeIdx]) := by
  obtain ⟨hu, hlen, hjs⟩ := canonicalState_spec hc
  have htabs : updateAt s.activeIdx
      (fun t => { t with ariaSelected := true, tabindexZero := true, activeClass := true })
      (s.tabs.map fun t =>
        { t with ariaSelected := false, tabindexZero := false, activeClass := false })
      = s.tabs := by
    apply List.ext_get?_iff.mpr
    intro j
    rw [updateAt_get?, List.get?_map]
    by_cases hjlen : j < s.tabs.length
    · obtain ⟨t, p, htj, hpj, f1, f2, f3, f4, f5⟩ := hjs j hjlen
      rw [htj]
      by_cases hji : j = s.activeIdx
      · subst hji
        simp only [if_pos rfl, Option.map_some']
        have hb : (s.activeIdx == s.activeIdx) = true := by simp
        rw [hb] at f1 f2 f3
        cases t
        simp_all
      · rw [if_neg hji]
        have hb : (j == s.activeIdx) = false := beq_eq_false_iff_ne.mpr hji
        rw [hb] at f1 f2 f3
        cases t
        simp_all
    · have hnone : s.tabs.get? j = none := List.get?_eq_none.mpr (Nat.le_of_not_lt hjlen)
      rw [hnone]
      simp
  have hpanels : updateAt s.activeIdx
      (fun p => { p with activeClass := true, ariaHidden := false })
      (s.panels.map fun p => { p with activeClass := false, ariaHidden := true })
      = s.panels := by
    apply List.ext_get?_iff.mpr
    intro j
    rw [updateAt_get?, List.get?_map]
    by_cases hjlen : j < s.tabs.length
    · obtain ⟨t, p, htj, hpj, f1, f2, f3, f4, f5⟩ := hjs j hjlen
      rw [hpj]
      by_cases hji : j = s.activeIdx
      · subst hji
        simp only [if_pos rfl, Option.map_some']
        have hb : (s.activeIdx == s.activeIdx) = true := by simp
        have hb2 : (s.activeIdx != s.activeIdx) = false := by simp
        rw [hb] at f4
        rw [hb2] at f5
        cases p
        simp_all
      · rw [if_neg hji]
        have hb : (j == s.activeIdx) = false := beq_eq_false_iff_ne.mpr hji
        have hb2 : (j != s.activeIdx) = true := by simp [bne, hb]
        rw [hb] at f4
        rw [hb2] at f5
        cases p
        simp_all
    · have hnone : s.panels.get? j = none :=
        List.get?_eq_none.mpr (by rw [← hlen]; exact Nat.le_of_not_lt hjlen)
      rw [hnone]
      simp
  simp only [activateTab]
  rw [if_neg (by simp [hph])]
  rw [htabs, hpanels]
  have hneeds : (match s.panels.get? s.activeIdx with
      | some p => p.lazy && !p.lazyLoaded
      | none => false) = false := by
    simp only [panelLoadedAt] at hld
    cases hpu : s.panels.get? s.activeIdx with
    | none => rfl
    | some p =>
      rw [hpu] at hld
      change (!p.lazy || p.lazyLoaded) = true at hld
      show (p.lazy && !p.lazyLoaded) = false
      cases hl : p.lazy
      · simp
      · rw [hl] at hld
        simp only [Bool.not_true, Bool.false_or] at hld
        simp [hld]
  rw [hneeds]
  cases s
  simp

/-- Counterexample to Claim C3 as stated: in a canonical two-tab state
with index 0 active and loaded, deep-link activation and keyboard
Enter/Space activation of the already-active index 0 each re-emit the
`picanvas:tab-change` event (the state is unchanged, but the claim's "no
duplicate tab-change events on every activation path" fails — only the
click path is guarded). -/
theorem c3_counterexample :
    (deepLinkActivate ⟨[⟨false, true, true, true⟩, ⟨false, false, false, false⟩],
      [⟨true, false, false, false⟩, ⟨false, true, false, false⟩], 0⟩ 0).2 =
      [TabEvent.tabChange 0] ∧
    (enterActivate ⟨[⟨false, true, true, true⟩, ⟨false, false, false, false⟩],
      [⟨true, false, false, false⟩, ⟨false, true, false, false⟩], 0⟩ 0).2 =
      [TabEvent.tabChange 0] ∧
    [TabEvent.tabChange 0] ≠ ([] : List TabEvent) ∧
    canonicalState ⟨[⟨false, true, true, true⟩, ⟨false, false, false, false⟩],
      [⟨true, false, false, false⟩, ⟨false, true, false, false⟩], 0⟩ = true := by
  decide

/-- Claim C3, amended: activating a placeholder tab returns `false` with
no state change and no events on every path; the click path skips
activation of the current index entirely (no state change, no events);
the keyboard Enter/Space and deep-link paths re-run `activateTab` on the
active index, which leaves the state unchanged (when the panel's lazy
content is already loaded) and emits no duplicate lazy-load event, but
does re-emit one `picanvas:tab-change` event. -/
theorem c3_activation_amended (s : TabsState) (i : Nat) :
    (placeholderAt s i = true → activateTab s i = (s, false, [])) ∧
    clickActivate s s.activeIdx = (s, []) ∧
    (canonicalState s = true → panelLoadedAt s s.activeIdx = true →
      placeholderAt s s.activeIdx = false →
      activateTab s s.activeIdx = (s, true, [TabEvent.tabChange s.activeIdx]) ∧
      enterActivate s s.activeIdx = (s, [TabEvent.tabChange s.activeIdx]) ∧
      deepLinkActivate s s.activeIdx = (s, [TabEvent.tabChange s.activeIdx])) := by
  refine ⟨?_, ?_, ?_⟩
  · intro h
    simp only [activateTab]
    rw [if_pos (by simp [h])]
  · simp [clickActivate]
  · intro hc hld hph
    have h := activateTab_self_eq hc hld hph
    refine ⟨h, ?_, ?_⟩
    · simp [enterActivate, h]
    · have hu : s.activeIdx < s.tabs.length := (canonicalState_spec hc).1
      simp [deepLinkActivate, hu, h]

/-- Witness for C3's amended placeholder conjunct: activating a
placeholder tab is rejected with `false`, no state change and no events. -/
theorem c3_activation_amended_witness :
    activateTab ⟨[⟨false, true, true, true⟩, ⟨true, false, false, false⟩],
      [⟨true, false, false, false⟩, ⟨false, true, false, false⟩], 0⟩ 1 =
      (⟨[⟨false, true, true, true⟩, ⟨true, false, false, false⟩],
        [⟨true, false, false, false⟩, ⟨false, true, false, false⟩], 0⟩, false, []) :=
  (c3_activation_amended ⟨[⟨false, true, true, true⟩, ⟨true, false, false, false⟩],
    [⟨true, false, false, false⟩, ⟨false, true, false, false⟩], 0⟩ 1).1 (by decide)

/-- Claim C6: after Tab Controller initialisation (nonempty tabs, panels
paired 1:1) and after every completed `activateTab` transition, exactly
one panel is active — the tab at the active index carries
`aria-selected='true'`/`tabindex 0` while every other tab carries
`aria-selected='false'`/`tabindex -1`, and exactly the non-active panels
carry `aria-hidden='true'`. -/
theorem c6_aria_agreement (tabs : List InitTab) (panels : List InitPanel)
    (s : TabsState) (i : Nat) :
    (tabs ≠ [] → tabs.length = panels.length →
      canonicalState (initState tabs panels) = true) ∧
    (s.tabs.length = s.panels.length → i < s.tabs.length →
      placeholderAt s i = false →
      canonicalState (activateTab s i).1 = true) := by
  constructor
  · intro hne hlen
    have hpanne : panels ≠ [] := by
      intro hp
      apply hne
      rw [hp] at hlen
      simp only [List.length_nil] at hlen
      exact List.eq_nil_of_length_eq_zero hlen
    have hmapne : panels.map InitPanel.hadActiveClass ≠ [] := by
      simp [hpanne]
    have hup : lastActiveIdx (panels.map InitPanel.hadActiveClass) < panels.length := by
      have h := lastActiveIdx_lt hmapne
      rwa [List.length_map] at h
    simp only [initState]
    apply canonical_of_pointwise
    · rw [mapWithIdx_length]
      omega
    · rw [mapWithIdx_length, mapWithIdx_length]
      exact hlen
    · intro j hj
      rw [mapWithIdx_length] at hj
      obtain ⟨t0, ht0⟩ : ∃ t0, tabs.get? j = some t0 := ⟨_, List.get?_eq_get hj⟩
      rw [mapWithIdx_get?, ht0]
      exact ⟨_, rfl, by simp, by simp, by simp⟩
    · intro j hj
      rw [mapWithIdx_length] at hj
      obtain ⟨p0, hp0⟩ : ∃ p0, panels.get? j = some p0 := ⟨_, List.get?_eq_get hj⟩
      rw [mapWithIdx_get?, hp0]
      exact ⟨_, rfl, by simp, by simp⟩
  · intro hlen hi hph
    exact activateTab_canonical hlen hi hph

/-- Witness for C6 at a concrete init (second panel marked active in the
markup) and a concrete completed activation. -/
theorem c6_aria_agreement_witness :
    canonicalState (initState [⟨false⟩, ⟨false⟩] [⟨false, false⟩, ⟨true, true⟩]) = true ∧
    canonicalState (activateTab ⟨[⟨false, true, true, true⟩, ⟨false, false, false, false⟩],
      [⟨true, false, false, false⟩, ⟨false, true, true, false⟩], 0⟩ 1).1 = true := by
  constructor
  · exact (c6_aria_agreement [⟨false⟩, ⟨false⟩] [⟨false, false⟩, ⟨true, true⟩]
      ⟨[], [], 0⟩ 0).1 (by decide) (by decide)
  · exact (c6_aria_agreement [] []
      ⟨[⟨false, true, true, true⟩, ⟨false, false, false, false⟩],
        [⟨true, false, false, false⟩, ⟨false, true, true, false⟩], 0⟩ 1).2
      (by decide) (by decide) (by decide)
